import Mathlib

/-!
Shallow embedding of the startup-scraper repository (src/scraper.py,
src/sheets_uploader.py, src/main.py) and proofs about it.

Strings are Lean `String`s; Python string operations are re-implemented
over the underlying `List Char` (code points), matching CPython semantics
on code points.  JSON / JavaScript values are modelled by `JValue`
(numbers as integers; the claims under study do not involve floats), and
Python dicts by insertion-ordered association lists with in-place update,
exactly like CPython dicts.
-/

namespace StartupScraper

/-- Python `str.startswith`. -/
def pyStartsWith (s pre : String) : Bool := pre.data.isPrefixOf s.data

/-- Substring test on char lists (Python `sub in s`). -/
def listContainsSub (needle : List Char) : List Char → Bool
  | [] => needle.isEmpty
  | c :: rest => needle.isPrefixOf (c :: rest) || listContainsSub needle rest

/-- Python `sub in s` for strings. -/
def pyContains (s sub : String) : Bool := listContainsSub sub.data s.data

/-- Python whitespace test (the ASCII cases relevant here). -/
def isPySpace (c : Char) : Bool := c = ' ' || c = '\t' || c = '\n' || c = '\r'

/-- Python `str.strip()`. -/
def pyTrim (s : String) : String :=
  ⟨((s.data.dropWhile isPySpace).reverse.dropWhile isPySpace).reverse⟩

/-- Lower-case one ASCII character (Python `str.lower` on the data seen here). -/
def pyLowerChar (c : Char) : Char :=
  if 'A' ≤ c && c ≤ 'Z' then Char.ofNat (c.toNat + 32) else c

/-- Python `str.lower()`. -/
def pyLower (s : String) : String := ⟨s.data.map pyLowerChar⟩

/-- Python `s.split(sep)` for a one-character separator, on char lists. -/
def splitOnChar (sep : Char) : List Char → List (List Char)
  | [] => [[]]
  | x :: xs =>
    match splitOnChar sep xs with
    | [] => [[]]
    | seg :: rest => if x = sep then [] :: seg :: rest else (x :: seg) :: rest

/-- Python `s.split('\n')`. -/
def pySplitLines (s : String) : List String := (splitOnChar '\n' s.data).map String.mk

/-- Python `s.split(':', 1)`: `none` when no colon occurs. -/
def pySplitColon1 (s : String) : Option (String × String) :=
  match s.data.span (fun c => !(c = ':')) with
  | (_, []) => none
  | (before, _ :: after) => some (⟨before⟩, ⟨after⟩)

/-- Python `s[:n]` (slice of the first `n` code points). -/
def pyTake (s : String) (n : Nat) : String := ⟨s.data.take n⟩

/-- Python `sep.join(xs)`. -/
def pyJoin (sep : String) : List String → String
  | [] => ""
  | [x] => x
  | x :: y :: xs => x ++ sep ++ pyJoin sep (y :: xs)

/-- Fuelled scan implementing Python `s.replace(pat, rep)` (all occurrences,
left to right, non-overlapping); the fuel is the length of the list. -/
def replaceScan (pat rep : List Char) : Nat → List Char → List Char
  | 0, l => l
  | _ + 1, [] => []
  | fuel + 1, c :: cs =>
    if pat.isPrefixOf (c :: cs) then rep ++ replaceScan pat rep fuel ((c :: cs).drop pat.length)
    else c :: replaceScan pat rep fuel cs

/-- Python `s.replace(pat, rep)` (used only with the non-empty pattern "mailto:"). -/
def pyReplace (s pat rep : String) : String :=
  if pat.data.isEmpty then s else ⟨replaceScan pat.data rep.data s.data.length s.data⟩

/-- Lexicographic (code-point) comparison on char lists — Python `str` `<=`. -/
def listLexLe : List Char → List Char → Bool
  | [], _ => true
  | _ :: _, [] => false
  | a :: as, b :: bs => if a = b then listLexLe as bs else decide (a < b)

/-- Python `a <= b` on strings. -/
def pyStrLe (a b : String) : Bool := listLexLe a.data b.data

/-- Python `sorted` on a list of strings (as insertion sort over `pyStrLe`). -/
def pySortStrings (l : List String) : List String :=
  l.insertionSort (fun a b => pyStrLe a b = true)

/-! ## JSON / JavaScript values and Python dicts -/

mutual
/-- JSON / JavaScript data values (numbers restricted to integers;
sequences and mappings as mutual inductives so that recursion over them
is structural). -/
inductive JValue where
  | null : JValue
  | bool : Bool → JValue
  | num : Int → JValue
  | str : String → JValue
  | arr : JArr → JValue
  | obj : JObj → JValue

/-- A JavaScript array of `JValue`s. -/
inductive JArr where
  | nil : JArr
  | cons : JValue → JArr → JArr

/-- A JavaScript object: ordered key/value entries. -/
inductive JObj where
  | nil : JObj
  | cons : String → JValue → JObj → JObj
end

/-- Whether an array has no elements. -/
def JArr.isNil : JArr → Bool
  | .nil => true
  | .cons _ _ => false

/-- Whether an object has no entries. -/
def JObj.isNil : JObj → Bool
  | .nil => true
  | .cons _ _ _ => false

/-- Python truthiness for a `JValue`. -/
def jvTruthy : JValue → Bool
  | .null => false
  | .bool b => b
  | .num n => n != 0
  | .str s => !s.data.isEmpty
  | .arr xs => !xs.isNil
  | .obj kvs => !kvs.isNil

mutual
/-- Python `str(v)`. -/
def pyStr : JValue → String
  | .null => "None"
  | .bool true => "True"
  | .bool false => "False"
  | .num n => toString n
  | .str s => s
  | .arr xs => "[" ++ pyJoin ", " (pyReprArr xs) ++ "]"
  | .obj kvs => "\x7b" ++ pyJoin ", " (pyReprObj kvs) ++ "\x7d"

/-- Python `repr(v)` (string escaping inside quotes is not modelled). -/
def pyRepr : JValue → String
  | .str s => "'" ++ s ++ "'"
  | .null => "None"
  | .bool true => "True"
  | .bool false => "False"
  | .num n => toString n
  | .arr xs => "[" ++ pyJoin ", " (pyReprArr xs) ++ "]"
  | .obj kvs => "\x7b" ++ pyJoin ", " (pyReprObj kvs) ++ "\x7d"

def pyReprArr : JArr → List String
  | .nil => []
  | .cons v vs => pyRepr v :: pyReprArr vs

def pyReprObj : JObj → List String
  | .nil => []
  | .cons k v kvs => ("'" ++ k ++ "'" ++ ": " ++ pyRepr v) :: pyReprObj kvs
end

/-- `str(x)` for each element of an array (`str(v) for v in value`). -/
def pyStrArr : JArr → List String
  | .nil => []
  | .cons v vs => pyStr v :: pyStrArr vs

/-- A Python dict with string keys: insertion-ordered association list. -/
abbrev Rec := List (String × JValue)

/-- Python `d[k]` lookup (as an option). -/
def dictGet (d : Rec) (k : String) : Option JValue :=
  match d with
  | [] => none
  | (k', v) :: rest => if k' = k then some v else dictGet rest k

/-- Python `d[k] = v`: replace in place, else append (CPython dict semantics). -/
def dictSet (d : Rec) (k : String) (v : JValue) : Rec :=
  match d with
  | [] => [(k, v)]
  | (k', v') :: rest => if k' = k then (k', v) :: rest else (k', v') :: dictSet rest k v

/-- Python `k in d`. -/
def dictContains (d : Rec) (k : String) : Bool := (dictGet d k).isSome

/-- Python `d.update(e)`: set every key of `e` in order. -/
def dictUpdate (d e : Rec) : Rec := e.foldl (fun acc kv => dictSet acc kv.1 kv.2) d

/-- The keys of a dict, in order. -/
def listKeys (d : Rec) : List String := d.map Prod.fst

/-- Python `bool(d[k])` for a present key, `False` for an absent one
(`k in d and d[k]` in the source). -/
def fieldTruthy (d : Rec) (k : String) : Bool :=
  match dictGet d k with
  | some v => jvTruthy v
  | none => false

/-- `if field not in d or not d[field]: d[field] = v` — the guarded write
used by the extraction stages. -/
def setField (d : Rec) (k : String) (v : JValue) : Rec :=
  if fieldTruthy d k then d else dictSet d k v

/-- `if k not in d: d[k] = v` — the guarded write used by link harvesting. -/
def setIfAbsent (d : Rec) (k : String) (v : JValue) : Rec :=
  if dictContains d k then d else dictSet d k v

/-! ## scraper.py: profile extraction (`scrape_profile` and helpers) -/

def base_url : String := "https://www.startupsg.gov.sg"

def profilesLit : List Char := "/profiles/".data

/-- `re.search(r'/profiles/(\d+)', url)` scan: first position where
"/profiles/" is followed by at least one digit; the greedy digit run. -/
def idFromChars : List Char → Option (List Char)
  | [] => none
  | c :: rest =>
    if profilesLit.isPrefixOf (c :: rest) then
      let digits := ((c :: rest).drop profilesLit.length).takeWhile Char.isDigit
      if digits.isEmpty then idFromChars rest else some digits
    else idFromChars rest

/-- `_extract_profile_id`: the captured digit group, or `None`. -/
def extractProfileId (url : String) : Option String := (idFromChars url.data).map String.mk

/-- The `field_mapping` dict of `_extract_profile_from_js`, as written in the
source (note the camel-case keys `companyName` / `foundedYear`). -/
def jsFieldMapping : List (String × String) :=
  [("name", "name"), ("companyName", "name"), ("title", "name"),
   ("description", "description"), ("about", "description"),
   ("industry", "industry"), ("sector", "sector"), ("location", "location"),
   ("website", "website"), ("url", "website"), ("email", "email"),
   ("phone", "phone"), ("founded", "founded"), ("foundedYear", "founded"),
   ("employees", "employees"), ("funding", "funding"), ("stage", "stage"),
   ("tags", "tags")]

/-- One key/value step of the `traverse` closure in `_extract_profile_from_js`:
`if key.lower() in field_mapping: ...` with the guarded write into `extracted`. -/
def jsExtractKV (key : String) (v : JValue) (ext : Rec) : Rec :=
  match jsFieldMapping.find? (fun kv => kv.1 = pyLower key) with
  | none => ext
  | some m =>
    if fieldTruthy ext m.2 then ext
    else
      match v with
      | .str s => dictSet ext m.2 (.str (pyStr (.str s)))
      | .num n => dictSet ext m.2 (.str (pyStr (.num n)))
      | .bool b => dictSet ext m.2 (.str (pyStr (.bool b)))
      | .arr xs => if xs.isNil then ext else dictSet ext m.2 (.str (pyJoin ", " (pyStrArr xs)))
      | _ => ext

mutual
/-- The recursive `traverse` of `_extract_profile_from_js`. -/
def traverseJs : JValue → Rec → Rec
  | .obj kvs, ext => traverseObj kvs ext
  | .arr xs, ext => traverseArr xs ext
  | _, ext => ext

def traverseObj : JObj → Rec → Rec
  | .nil, ext => ext
  | .cons k v rest, ext => traverseObj rest (traverseJs v (jsExtractKV k v ext))

def traverseArr : JArr → Rec → Rec
  | .nil, ext => ext
  | .cons v rest, ext => traverseArr rest (traverseJs v ext)
end

/-- `_extract_profile_from_js`. -/
def extract_profile_from_js (js : JValue) : Rec := traverseJs js []

mutual
/-- `_flatten_dict`, before the final `dict(items)` conversion:
the flat item list in generation order. -/
def flattenItems : JObj → String → List (String × JValue)
  | .nil, _ => []
  | .cons k v rest, parent =>
    flattenOne v (if parent = "" then k else parent ++ "_" ++ k)
      ++ flattenItems rest parent

/-- The contribution of one entry value `v` under the composed key `newKey`. -/
def flattenOne (v : JValue) (newKey : String) : List (String × JValue) :=
  match v with
  | .obj kvs2 => flattenItems kvs2 newKey
  | .arr xs => [(newKey, .str (pyJoin ", " (pyStrArr xs)))]
  | v => [(newKey, v)]
end

/-- `_flatten_dict(d)` = `dict(items)`. -/
def flatten_dict (kvs : JObj) : Rec :=
  (flattenItems kvs "").foldl (fun d kv => dictSet d kv.1 kv.2) []

/-- Outcome of one `<script type="application/json">` tag: `script.string`
missing, `json.loads` failure, or the parsed value. -/
inductive ScriptTag where
  | noString : ScriptTag
  | parseFail : ScriptTag
  | parsed : JValue → ScriptTag

/-- The rendered page as seen through the WebDriver, from `scrape_profile`'s
point of view.  `Except Unit` marks renderer calls that may raise. -/
structure Page where
  /-- the body-presence wait hit `TimeoutException` -/
  loadTimeout : Bool
  /-- `execute_script` for `window.__NUXT__` / store state (guarded try) -/
  nuxt : Except Unit JValue
  /-- per CSS selector, the texts of the found elements (each attempt guarded) -/
  selectorTexts : List (Except Unit (List String))
  /-- `find_element(By.TAG_NAME, "body").text` — NOT stage-guarded -/
  bodyText : Except Unit String
  /-- paragraph texts (guarded try) -/
  paraTexts : Except Unit (List String)
  /-- anchor `href` attributes (guarded try) -/
  linkHrefs : Except Unit (List (Option String))
  /-- `page_source` + soup parse + the per-tag outcomes — the fetch itself is
  NOT stage-guarded, only each tag's `json.loads` is -/
  scripts : Except Unit (List ScriptTag)

/-- Stage 1: embedded client-state extraction (guarded). -/
def stage_js (nuxt : Except Unit JValue) (pd : Rec) : Rec :=
  match nuxt with
  | .error _ => pd
  | .ok js => if jvTruthy js then dictUpdate pd (extract_profile_from_js js) else pd

/-- Inner element loop of the name heuristics: first element whose stripped
text is non-empty and shorter than 200 chars; guarded write, then `break`. -/
def nameLoop (pd : Rec) : List String → Rec
  | [] => pd
  | t :: rest =>
    let text := pyTrim t
    if !text.data.isEmpty && text.length < 200 then
      if fieldTruthy pd "name" then pd else dictSet pd "name" (.str text)
    else nameLoop pd rest

/-- Stage 2: name heuristics over the selector list (each selector guarded
by `except: continue`; outer break once `name` is set truthy). -/
def stage_name (sels : List (Except Unit (List String))) (pd : Rec) : Rec :=
  match sels with
  | [] => pd
  | .error _ :: rest => stage_name rest pd
  | .ok texts :: rest =>
    let pd' := nameLoop pd texts
    if fieldTruthy pd' "name" then pd' else stage_name rest pd'

/-- The `field_mapping` dict of the label/value scan, in source order. -/
def labelFieldMapping : List (String × String) :=
  [("industry", "industry"), ("sector", "sector"), ("founded", "founded"),
   ("location", "location"), ("website", "website"), ("email", "email"),
   ("phone", "phone"), ("employees", "employees"), ("funding", "funding"),
   ("stage", "stage"), ("description", "description"), ("about", "description"),
   ("tags", "tags")]

/-- One line of the label/value text scan. -/
def applyLabelLine (pd : Rec) (rawLine : String) : Rec :=
  let line := pyTrim rawLine
  if line.data.isEmpty then pd
  else
    match pySplitColon1 line with
    | none => pd
    | some (l, r) =>
      let label := pyLower (pyTrim l)
      let value := pyTrim r
      match labelFieldMapping.find? (fun kv => pyContains label kv.1) with
      | none => pd
      | some kv => setField pd kv.2 (.str value)

/-- Stage 3: label/value scan over the visible body text. -/
def stage_labels (pageText : String) (pd : Rec) : Rec :=
  (pySplitLines pageText).foldl applyLabelLine pd

/-- Stage 4: description fallback from paragraph texts (guarded). -/
def stage_desc (paras : Except Unit (List String)) (pd : Rec) : Rec :=
  if fieldTruthy pd "description" then pd
  else
    match paras with
    | .error _ => pd
    | .ok ps =>
      let ds := (ps.map pyTrim).filter (fun t => t.length > 50)
      if ds.isEmpty then pd else dictSet pd "description" (.str (pyJoin " " (ds.take 3)))

/-- The link classification loop: websites and (scheme-stripped) emails,
in document order. -/
def collectLinks : List (Option String) → List String × List String
  | [] => ([], [])
  | none :: rest => collectLinks rest
  | some h :: rest =>
    let (ws, es) := collectLinks rest
    if pyStartsWith h "http" && !pyContains h "startupsg.gov.sg" then (h :: ws, es)
    else if pyStartsWith h "mailto:" then (ws, pyReplace h "mailto:" "" :: es)
    else (ws, es)

/-- Stage 5: outbound link harvesting (guarded). -/
def stage_links (hrefs : Except Unit (List (Option String))) (pd : Rec) : Rec :=
  match hrefs with
  | .error _ => pd
  | .ok hs =>
    let (websites, emails) := collectLinks hs
    let pd' := match websites with
      | [] => pd
      | w :: _ => setIfAbsent pd "website" (.str w)
    match emails with
    | [] => pd'
    | e :: _ => setIfAbsent pd' "email" (.str e)

/-- Merge the flattened dict of one parsed script: guarded writes in order. -/
def mergeFlattened (pd : Rec) (flat : Rec) : Rec :=
  flat.foldl (fun d kv => setField d kv.1 kv.2) pd

/-- Stage 6: embedded JSON script extraction (each tag's parse guarded). -/
def stage_json (tags : List ScriptTag) (pd : Rec) : Rec :=
  tags.foldl
    (fun d tag =>
      match tag with
      | .noString => d
      | .parseFail => d
      | .parsed (.obj kvs) => mergeFlattened d (flatten_dict kvs)
      | .parsed _ => d)
    pd

/-- Stage 7: full-text fallback — unconditional write when the text is truthy. -/
def stage_fulltext (pageText : String) (pd : Rec) : Rec :=
  if pageText.data.isEmpty then pd else dictSet pd "full_text" (.str (pyTake pageText 3000))

/-- The initial record literal `{'url': ..., 'profile_id': ...}`. -/
def initRecord (url : String) : Rec :=
  [("url", .str url),
   ("profile_id", match extractProfileId url with | some s => .str s | none => .null)]

/-- `scrape_profile`, exposed as the list of intermediate records
`[pd0, …, pd7]` on the successful path; `none` on the timeout path and when
an exception escapes the stage-level guards (body-text fetch, page-source /
script collection). -/
def scrapeStates (url : String) (pg : Page) : Option (List Rec) :=
  if pg.loadTimeout then none
  else
    let pd0 := initRecord url
    let pd1 := stage_js pg.nuxt pd0
    let pd2 := stage_name pg.selectorTexts pd1
    match pg.bodyText with
    | .error _ => none
    | .ok pageText =>
      let pd3 := stage_labels pageText pd2
      let pd4 := stage_desc pg.paraTexts pd3
      let pd5 := stage_links pg.linkHrefs pd4
      match pg.scripts with
      | .error _ => none
      | .ok tags =>
        let pd6 := stage_json tags pd5
        let pd7 := stage_fulltext pageText pd6
        some [pd0, pd1, pd2, pd3, pd4, pd5, pd6, pd7]

/-- `scrape_profile`: the final record, or `None`. -/
def scrape_profile (url : String) (pg : Page) : Option Rec :=
  (scrapeStates url pg).map (fun states => states.getLastD [])

/-! ## scraper.py: URL discovery (`get_all_startup_urls` and helpers) -/

/-- URL normalization shared by the two href extractors. -/
def normalizeUrl (h : String) : String :=
  if pyStartsWith h "/" then base_url ++ h
  else if !pyStartsWith h "http" then base_url ++ "/" ++ h
  else h

/-- Tail of the quoted-profile regex at a position: `/profiles/` ++ digits
followed by a closing quote; returns the matched tail and the rest after
the quote. -/
def isQuoteChar (c : Char) : Bool := c = '"' || c = Char.ofNat 39

def matchQuotedTail (l : List Char) : Option (List Char × List Char) :=
  if profilesLit.isPrefixOf l then
    let after := l.drop profilesLit.length
    let digits := after.takeWhile Char.isDigit
    if digits.isEmpty then none
    else
      match after.drop digits.length with
      | c :: rest => if isQuoteChar c then some (profilesLit ++ digits, rest) else none
      | [] => none
  else none

/-- The lazy `[^"\']*?` body of `r'["\']([^"\']*?/profiles/\d+)["\']'`:
extend the body one char at a time (no quotes allowed) until the tail
matches. -/
def tryQuotedBody (acc : List Char) : List Char → Option (List Char × List Char)
  | [] =>
    match matchQuotedTail [] with
    | some (tm, rest) => some (acc ++ tm, rest)
    | none => none
  | c :: cs =>
    match matchQuotedTail (c :: cs) with
    | some (tm, rest) => some (acc ++ tm, rest)
    | none => if isQuoteChar c then none else tryQuotedBody (acc ++ [c]) cs

/-- `re.findall(r'["\']([^"\']*?/profiles/\d+)["\']', src)` — fuelled
left-to-right non-overlapping scan (fuel = length of the list). -/
def quotedScan : Nat → List Char → List (List Char)
  | 0, _ => []
  | _ + 1, [] => []
  | fuel + 1, c :: rest =>
    if isQuoteChar c then
      match tryQuotedBody [] rest with
      | some (g, rest2) => g :: quotedScan fuel rest2
      | none => quotedScan fuel rest
    else quotedScan fuel rest

/-- `re.findall(r'/profiles/(\d+)', src)` — fuelled non-overlapping scan. -/
def idScan : Nat → List Char → List (List Char)
  | 0, _ => []
  | _ + 1, [] => []
  | fuel + 1, c :: rest =>
    if profilesLit.isPrefixOf (c :: rest) then
      let after := (c :: rest).drop profilesLit.length
      let digits := after.takeWhile Char.isDigit
      if digits.isEmpty then idScan fuel rest
      else digits :: idScan fuel (after.drop digits.length)
    else idScan fuel rest

/-- One rendered directory page, as seen by `_extract_urls_from_current_page`. -/
structure DirPage where
  /-- anchor `href`s (method 1; guarded try) -/
  linkHrefs : Except Unit (List (Option String))
  /-- `driver.page_source` (methods 2 and 3 share one guarded try) -/
  pageSource : Except Unit String

/-- `_extract_urls_from_current_page`: the URLs added to the set, in
generation order (the set itself is deduplicated by the accumulator). -/
def extractUrlsFromPage (pg : DirPage) : List String :=
  let m1 :=
    match pg.linkHrefs with
    | .error _ => []
    | .ok hs =>
      (hs.filterMap id).filterMap
        (fun h => if pyContains h "/profiles/" then some (normalizeUrl h) else none)
  let m23 :=
    match pg.pageSource with
    | .error _ => []
    | .ok src =>
      (quotedScan src.data.length src.data).map (fun g => normalizeUrl ⟨g⟩)
        ++ (idScan src.data.length src.data).map (fun d => base_url ++ "/profiles/" ++ ⟨d⟩)
  m1 ++ m23

/-- Add to the accumulated set (`profile_urls.update(new_urls)`). -/
def insertIfAbsent (acc : List String) (u : String) : List String :=
  if u ∈ acc then acc else acc ++ [u]

/-- The page-advance loop of `get_all_startup_urls` (`while current_page <=
max_pages and not no_more_pages`), with fuel `max_pages + 1 - current_page`;
returns the accumulated URL set and the number of loop iterations.
`pages n` is the rendered state while processing page `n`; `nav n` is
whether `_navigate_to_next_page` succeeded there. -/
def pageLoop (pages : Nat → DirPage) (nav : Nat → Bool) :
    Nat → Nat → List String → List String × Nat
  | 0, _, acc => (acc, 0)
  | fuel + 1, page, acc =>
    let acc' := (extractUrlsFromPage (pages page)).foldl insertIfAbsent acc
    if nav page then
      let (r, n) := pageLoop pages nav fuel (page + 1) acc'
      (r, n + 1)
    else (acc', 1)

/-- `get_all_startup_urls`: run the loop from page 1 under the 1000-page cap,
then `sorted(list(set(...)))`. -/
def get_all_startup_urls (pages : Nat → DirPage) (nav : Nat → Bool) : List String :=
  pySortStrings (pageLoop pages nav 1000 1 []).1

/-- The number of iterations the page-advance loop executed. -/
def discoveryIterations (pages : Nat → DirPage) (nav : Nat → Bool) : Nat :=
  (pageLoop pages nav 1000 1 []).2

/-! ## sheets_uploader.py: `upload_data` -/

/-- An effect on the target worksheet. -/
inductive SheetOp where
  | getWorksheet : String → SheetOp
  | addWorksheet : String → Nat → Nat → SheetOp
  | clear : SheetOp
  | update : String → List (List String) → SheetOp
  | format : String → SheetOp

/-- `str(record.get(key, ''))`. -/
def pyGetStr (r : Rec) (k : String) : String :=
  match dictGet r k with
  | some v => pyStr v
  | none => ""

/-- The sorted union of all record keys (`sorted(list(all_keys))`). -/
def uploadHeaders (data : List Rec) : List String :=
  pySortStrings (data.foldl (fun acc r => (listKeys r).foldl insertIfAbsent acc) [])

/-- The uploaded table: header row then one row per record, in input order. -/
def uploadRows (data : List Rec) : List (List String) :=
  uploadHeaders data :: data.map (fun r => (uploadHeaders data).map (pyGetStr r))

/-- `upload_data(data, worksheet_name)` as the sequence of worksheet effects
(`wsExists` says whether the named worksheet already exists). -/
def upload_data (data : List Rec) (worksheetName : String) (wsExists : Bool) : List SheetOp :=
  if data.isEmpty then []
  else
    (if wsExists then [SheetOp.getWorksheet worksheetName]
     else [SheetOp.addWorksheet worksheetName 1000 20])
      ++ [SheetOp.clear, SheetOp.update "A1" (uploadRows data), SheetOp.format "A1:Z1"]

/-! ## main.py: `main` -/

/-- Observable persistence events of one run of `main`. -/
inductive Event where
  | savedLocal : List Rec → Event
  | uploadAttempt : Event
  | uploadOk : Event
  | uploadFailed : String → Event

/-- The non-deterministic environment of one run of `main`: outcomes of the
external calls, in program order. -/
structure MainInput where
  /-- `StartupSGScraper(...)` constructor succeeded -/
  scraperInitOk : Bool
  /-- `get_all_startup_urls()` result, or an escaping exception -/
  urls : Except Unit (List String)
  /-- the `--limit` argument -/
  limit : Option Nat
  /-- `scrape_profile(url)` per URL -/
  scrapeResult : String → Option Rec
  /-- the JSON file write succeeded -/
  saveOk : Bool
  /-- the `--skip-upload` flag -/
  skipUpload : Bool
  /-- uploader construction + `upload_data`, or the exception message -/
  uploadOutcome : Except String Unit

/-- `urls[:limit]` when a limit is given. -/
def applyLimit (limit : Option Nat) (urls : List String) : List String :=
  match limit with
  | some n => urls.take n
  | none => urls

/-- The records `main` accumulates (`all_data`). -/
def mainAllData (inp : MainInput) : List Rec :=
  match inp.urls with
  | .error _ => []
  | .ok us => (applyLimit inp.limit us).filterMap inp.scrapeResult

/-- The persistence-event trace of one run of `main`.  Any exception before
or during the local save is caught at top level, producing no further
events; upload errors are caught inside the upload block. -/
def mainEvents (inp : MainInput) : List Event :=
  if !inp.scraperInitOk then []
  else
    match inp.urls with
    | .error _ => []
    | .ok us =>
      if us.isEmpty then []
      else
        let allData := (applyLimit inp.limit us).filterMap inp.scrapeResult
        if !inp.saveOk then []
        else
          Event.savedLocal allData ::
            (if inp.skipUpload then []
             else
               Event.uploadAttempt ::
                 (match inp.uploadOutcome with
                  | .ok _ => [Event.uploadOk]
                  | .error m => [Event.uploadFailed m]))

/-- The contents of the local output file after a run, given the trace. -/
def localDisk (trace : List Event) : Option (List Rec) :=
  trace.foldl
    (fun disk e => match e with | Event.savedLocal d => some d | _ => disk)
    none

/-! ## Auxiliary notions for the stated properties -/

/-- Record `b` keeps every truthy field of record `a` unchanged:
the first-writer-wins relation between extraction-stage snapshots. -/
def PreservesTruthy (a b : Rec) : Prop :=
  ∀ k v, dictGet a k = some v → jvTruthy v = true → dictGet b k = some v

/-- `PreservesTruthy` restricted to keys outside `ex`. -/
def PreservesTruthyExcept (ex : List String) (a b : Rec) : Prop :=
  ∀ k v, k ∉ ex → dictGet a k = some v → jvTruthy v = true → dictGet b k = some v

/-- The record fields the embedded client-state stage can write
(the value set of its `field_mapping`). -/
def jsFieldTargets : List String :=
  ["name", "description", "industry", "sector", "location", "website", "email",
   "phone", "founded", "employees", "funding", "stage", "tags"]

/-! ## Concrete inputs used by the per-claim witnesses and counterexamples -/

/-- C1: a page whose embedded-JSON stage sets `full_text` before the
full-text stage runs. -/
def c1Page : Page :=
  ⟨false, .error (), [], .ok "abc", .ok [], .ok [],
   .ok [.parsed (.obj (.cons "full_text" (.str "hi") .nil))]⟩

/-- C1: the intermediate records `scrape_profile "u1" c1Page` goes through. -/
def c1States : List Rec :=
  [[("url", .str "u1"), ("profile_id", .null)],
   [("url", .str "u1"), ("profile_id", .null)],
   [("url", .str "u1"), ("profile_id", .null)],
   [("url", .str "u1"), ("profile_id", .null)],
   [("url", .str "u1"), ("profile_id", .null)],
   [("url", .str "u1"), ("profile_id", .null)],
   [("url", .str "u1"), ("profile_id", .null), ("full_text", .str "hi")],
   [("url", .str "u1"), ("profile_id", .null), ("full_text", .str "abc")]]

/-- C2: a page where reading the body text raises (the stage-unguarded call). -/
def c2PageErr : Page := ⟨false, .ok .null, [], .error (), .ok [], .ok [], .ok []⟩

/-- C2: the same page with the body-text read succeeding. -/
def c2PageOk : Page := ⟨false, .ok .null, [], .ok "", .ok [], .ok [], .ok []⟩

/-- C3: a directory whose only link is `/profiles/abc` (no numeric id). -/
def c3Pages : Nat → DirPage := fun _ => ⟨.ok [some "/profiles/abc"], .ok ""⟩

def c3Nav : Nat → Bool := fun _ => false

/-- C4: the embedded client-state of the end-to-end scenario. -/
def c4Json : JValue :=
  .obj (.cons "companyName" (.str "Acme") (.cons "sector" (.str "Fintech") .nil))

/-- C4: a page with that embedded state and body text "Founded: 2019". -/
def c4Page : Page :=
  ⟨false, .ok c4Json, [], .ok "Founded: 2019", .ok [], .ok [], .ok []⟩

/-- C4: the URL of the end-to-end scenario. -/
def c4Url : String := "https://www.startupsg.gov.sg/profiles/12345"

/-- C4: the record the code actually produces in the scenario. -/
def c4Rec : Rec :=
  [("url", .str c4Url), ("profile_id", .str "12345"), ("sector", .str "Fintech"),
   ("founded", .str "2019"), ("full_text", .str "Founded: 2019")]

/-- C5: a benign page for the profile-id claims. -/
def c5Page : Page := ⟨false, .ok .null, [], .ok "", .ok [], .ok [], .ok []⟩

/-- C5: a second benign page, for the witness. -/
def c5wPage : Page := ⟨false, .ok .null, [], .ok "", .ok [], .ok [], .ok []⟩

/-- C5: the witness URL with numeric identifier 12345. -/
def c5wUrl : String := "https://www.startupsg.gov.sg/profiles/12345"

/-- C5: the record scraped from `c5wUrl` on `c5wPage`. -/
def c5wRec : Rec := [("url", .str c5wUrl), ("profile_id", .str "12345")]

/-- C6: the record scraped from "w6" on the non-empty-text witness page. -/
def c6wRec : Rec :=
  [("url", .str "w6"), ("profile_id", .null), ("full_text", .str "hello")]

/-- C6: a page whose visible body text is empty. -/
def c6Page : Page := ⟨false, .ok .null, [], .ok "", .ok [], .ok [], .ok []⟩

/-- C6: a page with short non-empty body text, for the witness. -/
def c6wPage : Page := ⟨false, .ok .null, [], .ok "hello", .ok [], .ok [], .ok []⟩

/-- C7: records with field sets `{url, name}` and `{url, industry}`. -/
def c7r1 : Rec := [("url", .str "u"), ("name", .str "n")]

def c7r2 : Rec := [("url", .str "u2"), ("industry", .str "i")]

/-- C8: a directory whose first page already has no next page. -/
def c8Pages : Nat → DirPage := fun _ => ⟨.ok [], .ok ""⟩

def c8Nav : Nat → Bool := fun _ => false

/-- C9: a run whose remote upload fails with a missing-credentials error. -/
def c9Input : MainInput :=
  ⟨true, .ok ["u"], none, fun _ => some [("url", .str "u")], true, false,
   .error "Credentials file not found"⟩

/-! # Theorems -/

/-! ## Dictionary lemmas -/

theorem dictGet_dictSet_same (d : Rec) (k : String) (v : JValue) :
    dictGet (dictSet d k v) k = some v := by
  induction d with
  | nil => simp [dictSet, dictGet]
  | cons kv rest ih =>
    obtain ⟨k', v'⟩ := kv
    by_cases h : k' = k
    · simp [dictSet, dictGet, h]
    · simp [dictSet, dictGet, h, ih]

theorem dictGet_dictSet_ne (d : Rec) {k k' : String} (h : k ≠ k') (v : JValue) :
    dictGet (dictSet d k v) k' = dictGet d k' := by
  induction d with
  | nil => simp [dictSet, dictGet, h]
  | cons kv rest ih =>
    obtain ⟨k0, v0⟩ := kv
    by_cases h0 : k0 = k
    · subst h0; simp [dictSet, dictGet, h]
    · simp [dictSet, dictGet, h0, ih]

theorem mem_keys_of_dictGet {d : Rec} {k : String} {v : JValue}
    (h : dictGet d k = some v) : k ∈ listKeys d := by
  induction d with
  | nil => simp [dictGet] at h
  | cons kv rest ih =>
    obtain ⟨k0, v0⟩ := kv
    by_cases h0 : k0 = k
    · subst h0; simp [listKeys]
    · simp [dictGet, h0] at h
      simp [listKeys] at ih ⊢
      exact Or.inr (ih h)

theorem listKeys_cons (kv : String × JValue) (rest : Rec) :
    listKeys (kv :: rest) = kv.1 :: listKeys rest := rfl

theorem dictGet_eq_none_of_not_mem {d : Rec} {k : String}
    (h : k ∉ listKeys d) : dictGet d k = none := by
  induction d with
  | nil => simp [dictGet]
  | cons kv rest ih =>
    obtain ⟨k0, v0⟩ := kv
    rw [listKeys_cons, List.mem_cons] at h
    push_neg at h
    have h1 : k0 ≠ k := fun hh => h.1 hh.symm
    simp [dictGet, h1, ih h.2]

theorem mem_keys_dictSet {d : Rec} {k a : String} {v : JValue}
    (h : a ∈ listKeys (dictSet d k v)) : a ∈ listKeys d ∨ a = k := by
  induction d with
  | nil => simp [dictSet, listKeys] at h; exact Or.inr h
  | cons kv rest ih =>
    obtain ⟨k0, v0⟩ := kv
    by_cases h0 : k0 = k
    · subst h0; simp [dictSet, listKeys] at h ⊢; tauto
    · simp [dictSet, h0, listKeys] at h ⊢
      rcases h with h | h
      · exact Or.inl (Or.inl h)
      · rcases ih (by simpa [listKeys] using h) with h' | h'
        · exact Or.inl (Or.inr (by simpa [listKeys] using h'))
        · exact Or.inr h'

theorem dictContains_dictSet (d : Rec) (f : String) (w : JValue) {k : String}
    (h : dictContains d k = true) : dictContains (dictSet d f w) k = true := by
  by_cases hk : f = k
  · subst hk; simp [dictContains, dictGet_dictSet_same]
  · simpa [dictContains, dictGet_dictSet_ne d hk] using h

theorem dictUpdate_get_of_not_mem {e : Rec} {k : String} (d : Rec)
    (h : k ∉ listKeys e) : dictGet (dictUpdate d e) k = dictGet d k := by
  induction e generalizing d with
  | nil => rfl
  | cons kv rest ih =>
    obtain ⟨k0, v0⟩ := kv
    rw [listKeys_cons, List.mem_cons] at h
    push_neg at h
    show dictGet (dictUpdate (dictSet d k0 v0) rest) k = dictGet d k
    rw [ih _ h.2, dictGet_dictSet_ne d (fun hh => h.1 hh.symm)]

theorem fieldTruthy_of_get {d : Rec} {k : String} {v : JValue}
    (hget : dictGet d k = some v) (htr : jvTruthy v = true) :
    fieldTruthy d k = true := by
  simp [fieldTruthy, hget, htr]

/-! ## Truthy-field preservation: primitives -/

theorem pt_refl (d : Rec) : PreservesTruthy d d := fun _ _ h _ => h

theorem pt_trans {a b c : Rec} (h1 : PreservesTruthy a b) (h2 : PreservesTruthy b c) :
    PreservesTruthy a c := fun k v hg ht => h2 k v (h1 k v hg ht) ht

theorem pt_to_pte {ex : List String} {a b : Rec} (h : PreservesTruthy a b) :
    PreservesTruthyExcept ex a b := fun k v _ hg ht => h k v hg ht

theorem pte_trans {ex : List String} {a b c : Rec}
    (h1 : PreservesTruthyExcept ex a b) (h2 : PreservesTruthyExcept ex b c) :
    PreservesTruthyExcept ex a c := fun k v hk hg ht => h2 k v hk (h1 k v hk hg ht) ht

theorem dictSet_pt_of_not_truthy {d : Rec} {f : String} (w : JValue)
    (h : fieldTruthy d f = false) : PreservesTruthy d (dictSet d f w) := by
  intro k v hget htr
  by_cases hk : f = k
  · subst hk; rw [fieldTruthy_of_get hget htr] at h; cases h
  · rw [dictGet_dictSet_ne d hk]; exact hget

theorem setField_pt (d : Rec) (f : String) (w : JValue) :
    PreservesTruthy d (setField d f w) := by
  unfold setField
  by_cases h : fieldTruthy d f
  · simp [h]; exact pt_refl d
  · simp [h]; exact dictSet_pt_of_not_truthy w (by simpa using h)

theorem setIfAbsent_pt (d : Rec) (f : String) (w : JValue) :
    PreservesTruthy d (setIfAbsent d f w) := by
  unfold setIfAbsent
  by_cases h : dictContains d f
  · simp [h]; exact pt_refl d
  · simp [h]
    intro k v hget htr
    by_cases hk : f = k
    · subst hk
      simp [dictContains, hget] at h
    · rw [dictGet_dictSet_ne d hk]; exact hget

theorem setField_ct (d : Rec) (f : String) (w : JValue) {k : String}
    (h : dictContains d k = true) : dictContains (setField d f w) k = true := by
  unfold setField
  by_cases hf : fieldTruthy d f
  · simpa [hf] using h
  · simp [hf]; exact dictContains_dictSet d f w h

theorem setIfAbsent_ct (d : Rec) (f : String) (w : JValue) {k : String}
    (h : dictContains d k = true) : dictContains (setIfAbsent d f w) k = true := by
  unfold setIfAbsent
  by_cases hf : dictContains d f
  · simpa [hf] using h
  · simp [hf]; exact dictContains_dictSet d f w h

theorem setField_get_ne (d : Rec) {f k : String} (h : f ≠ k) (w : JValue) :
    dictGet (setField d f w) k = dictGet d k := by
  unfold setField
  by_cases hf : fieldTruthy d f
  · simp [hf]
  · simp [hf, dictGet_dictSet_ne d h]

theorem setIfAbsent_get_ne (d : Rec) {f k : String} (h : f ≠ k) (w : JValue) :
    dictGet (setIfAbsent d f w) k = dictGet d k := by
  unfold setIfAbsent
  by_cases hf : dictContains d f
  · simp [hf]
  · simp [hf, dictGet_dictSet_ne d h]

/-- Fold a binary-step relation through `List.foldl`. -/
theorem foldl_rel {β : Type} {R : Rec → Rec → Prop} (hrefl : ∀ d, R d d)
    (htrans : ∀ a b c, R a b → R b c → R a c)
    (f : Rec → β → Rec) (hf : ∀ d b, R d (f d b)) :
    ∀ (l : List β) (d : Rec), R d (l.foldl f d) := by
  intro l
  induction l with
  | nil => intro d; exact hrefl d
  | cons x xs ih => intro d; exact htrans _ _ _ (hf d x) (ih (f d x))

/-- The key-containment relation between stage snapshots. -/
theorem ct_refl (d : Rec) : ∀ k, dictContains d k = true → dictContains d k = true :=
  fun _ h => h

/-! ## Keys written by the embedded client-state traversal -/

theorem jsFieldMapping_targets :
    ∀ m ∈ jsFieldMapping, m.2 ∈ jsFieldTargets := by decide

theorem keys_jsExtractKV {key : String} {v : JValue} {ext : Rec} {k : String}
    (h : k ∈ listKeys (jsExtractKV key v ext)) :
    k ∈ listKeys ext ∨ k ∈ jsFieldTargets := by
  unfold jsExtractKV at h
  rcases hf : jsFieldMapping.find? (fun kv => kv.1 = pyLower key) with _ | m
  · rw [hf] at h; exact Or.inl h
  · rw [hf] at h
    dsimp only at h
    have hm : m.2 ∈ jsFieldTargets :=
      jsFieldMapping_targets m (List.mem_of_find?_eq_some hf)
    by_cases ht : fieldTruthy ext m.2
    · rw [if_pos ht] at h; exact Or.inl h
    · rw [if_neg ht] at h
      have set_case : ∀ w, k ∈ listKeys (dictSet ext m.2 w) →
          k ∈ listKeys ext ∨ k ∈ jsFieldTargets := by
        intro w hw
        rcases mem_keys_dictSet hw with h' | h'
        · exact Or.inl h'
        · exact Or.inr (h' ▸ hm)
      cases v with
      | str s => exact set_case _ h
      | num n => exact set_case _ h
      | bool b => exact set_case _ h
      | arr xs =>
        dsimp only at h
        by_cases hx : xs.isNil
        · rw [if_pos hx] at h; exact Or.inl h
        · rw [if_neg hx] at h; exact set_case _ h
      | null => exact Or.inl h
      | obj kvs => exact Or.inl h

mutual
theorem keys_traverseJs (v : JValue) :
    ∀ (ext : Rec) (k : String), k ∈ listKeys (traverseJs v ext) →
      k ∈ listKeys ext ∨ k ∈ jsFieldTargets := by
  intro ext k h
  cases v with
  | obj kvs => exact keys_traverseObj kvs ext k h
  | arr xs => exact keys_traverseArr xs ext k h
  | null => exact Or.inl h
  | bool b => exact Or.inl h
  | num n => exact Or.inl h
  | str s => exact Or.inl h

theorem keys_traverseObj (kvs : JObj) :
    ∀ (ext : Rec) (k : String), k ∈ listKeys (traverseObj kvs ext) →
      k ∈ listKeys ext ∨ k ∈ jsFieldTargets := by
  intro ext k h
  match kvs with
  | .nil => exact Or.inl h
  | .cons k0 v0 rest =>
    rcases keys_traverseObj rest _ k h with h' | h'
    · rcases keys_traverseJs v0 _ k h' with h'' | h''
      · exact keys_jsExtractKV h''
      · exact Or.inr h''
    · exact Or.inr h'

theorem keys_traverseArr (xs : JArr) :
    ∀ (ext : Rec) (k : String), k ∈ listKeys (traverseArr xs ext) →
      k ∈ listKeys ext ∨ k ∈ jsFieldTargets := by
  intro ext k h
  match xs with
  | .nil => exact Or.inl h
  | .cons v0 rest =>
    rcases keys_traverseArr rest _ k h with h' | h'
    · exact keys_traverseJs v0 _ k h'
    · exact Or.inr h'
end

theorem keys_extract_profile_from_js {js : JValue} {k : String}
    (h : k ∈ listKeys (extract_profile_from_js js)) : k ∈ jsFieldTargets := by
  rcases keys_traverseJs js [] k h with h' | h'
  · cases h'
  · exact h'

/-! ## Per-stage preservation lemmas -/

theorem stage_js_pt_init (nx : Except Unit JValue) (url : String) :
    PreservesTruthy (initRecord url) (stage_js nx (initRecord url)) := by
  cases nx with
  | error e => exact pt_refl _
  | ok js =>
    unfold stage_js
    dsimp only
    by_cases ht : jvTruthy js
    · rw [if_pos ht]
      intro k v hget _
      have hk : k ∈ listKeys (initRecord url) := mem_keys_of_dictGet hget
      have hk2 : k = "url" ∨ k = "profile_id" := by
        simpa [initRecord, listKeys] using hk
      have hnot : k ∉ listKeys (extract_profile_from_js js) := by
        intro hmem
        have := keys_extract_profile_from_js hmem
        rcases hk2 with h | h <;> subst h <;> revert this <;> decide
      rw [dictUpdate_get_of_not_mem _ hnot]
      exact hget
    · rw [if_neg ht]; exact pt_refl _

theorem dictUpdate_ct (d e : Rec) {k : String} (h : dictContains d k = true) :
    dictContains (dictUpdate d e) k = true := by
  induction e generalizing d with
  | nil => exact h
  | cons kv rest ih => exact ih _ (dictContains_dictSet d kv.1 kv.2 h)

theorem stage_js_ct (nx : Except Unit JValue) (pd : Rec) {k : String}
    (h : dictContains pd k = true) : dictContains (stage_js nx pd) k = true := by
  cases nx with
  | error e => exact h
  | ok js =>
    unfold stage_js
    dsimp only
    by_cases ht : jvTruthy js
    · rw [if_pos ht]; exact dictUpdate_ct pd _ h
    · rw [if_neg ht]; exact h

theorem stage_js_get_not_target (nx : Except Unit JValue) (pd : Rec) {k : String}
    (h : k ∉ jsFieldTargets) : dictGet (stage_js nx pd) k = dictGet pd k := by
  cases nx with
  | error e => rfl
  | ok js =>
    unfold stage_js
    dsimp only
    by_cases ht : jvTruthy js
    · rw [if_pos ht]
      exact dictUpdate_get_of_not_mem pd (fun hmem => h (keys_extract_profile_from_js hmem))
    · rw [if_neg ht]

theorem nameLoop_pt (ts : List String) (pd : Rec) : PreservesTruthy pd (nameLoop pd ts) := by
  induction ts with
  | nil => exact pt_refl pd
  | cons t rest ih =>
    unfold nameLoop
    by_cases hq : !(pyTrim t).data.isEmpty && (pyTrim t).length < 200
    · rw [if_pos hq]
      by_cases hn : fieldTruthy pd "name"
      · rw [if_pos hn]; exact pt_refl pd
      · rw [if_neg hn]; exact dictSet_pt_of_not_truthy _ (by simpa using hn)
    · rw [if_neg hq]; exact ih

theorem nameLoop_get_ne (ts : List String) (pd : Rec) {k : String} (h : k ≠ "name") :
    dictGet (nameLoop pd ts) k = dictGet pd k := by
  induction ts with
  | nil => rfl
  | cons t rest ih =>
    unfold nameLoop
    by_cases hq : !(pyTrim t).data.isEmpty && (pyTrim t).length < 200
    · rw [if_pos hq]
      by_cases hn : fieldTruthy pd "name"
      · rw [if_pos hn]
      · rw [if_neg hn, dictGet_dictSet_ne pd (fun hh => h hh.symm)]
    · rw [if_neg hq]; exact ih

theorem nameLoop_ct (ts : List String) (pd : Rec) {k : String}
    (h : dictContains pd k = true) : dictContains (nameLoop pd ts) k = true := by
  induction ts with
  | nil => exact h
  | cons t rest ih =>
    unfold nameLoop
    by_cases hq : !(pyTrim t).data.isEmpty && (pyTrim t).length < 200
    · rw [if_pos hq]
      by_cases hn : fieldTruthy pd "name"
      · rw [if_pos hn]; exact h
      · rw [if_neg hn]; exact dictContains_dictSet pd _ _ h
    · rw [if_neg hq]; exact ih

theorem stage_name_pt (sels : List (Except Unit (List String))) (pd : Rec) :
    PreservesTruthy pd (stage_name sels pd) := by
  induction sels generalizing pd with
  | nil => exact pt_refl pd
  | cons s rest ih =>
    cases s with
    | error e => exact ih pd
    | ok texts =>
      show PreservesTruthy pd
        (if fieldTruthy (nameLoop pd texts) "name" then nameLoop pd texts
         else stage_name rest (nameLoop pd texts))
      by_cases hb : fieldTruthy (nameLoop pd texts) "name"
      · rw [if_pos hb]; exact nameLoop_pt texts pd
      · rw [if_neg hb]; exact pt_trans (nameLoop_pt texts pd) (ih _)

theorem stage_name_get_ne (sels : List (Except Unit (List String))) (pd : Rec)
    {k : String} (h : k ≠ "name") : dictGet (stage_name sels pd) k = dictGet pd k := by
  induction sels generalizing pd with
  | nil => rfl
  | cons s rest ih =>
    cases s with
    | error e => exact ih pd
    | ok texts =>
      show dictGet
        (if fieldTruthy (nameLoop pd texts) "name" then nameLoop pd texts
         else stage_name rest (nameLoop pd texts)) k = dictGet pd k
      by_cases hb : fieldTruthy (nameLoop pd texts) "name"
      · rw [if_pos hb]; exact nameLoop_get_ne texts pd h
      · rw [if_neg hb, ih _, nameLoop_get_ne texts pd h]

theorem stage_name_ct (sels : List (Except Unit (List String))) (pd : Rec)
    {k : String} (h : dictContains pd k = true) :
    dictContains (stage_name sels pd) k = true := by
  induction sels generalizing pd with
  | nil => exact h
  | cons s rest ih =>
    cases s with
    | error e => exact ih pd h
    | ok texts =>
      show dictContains
        (if fieldTruthy (nameLoop pd texts) "name" then nameLoop pd texts
         else stage_name rest (nameLoop pd texts)) k = true
      by_cases hb : fieldTruthy (nameLoop pd texts) "name"
      · rw [if_pos hb]; exact nameLoop_ct texts pd h
      · rw [if_neg hb]; exact ih _ (nameLoop_ct texts pd h)

theorem applyLabelLine_pt (pd : Rec) (line : String) :
    PreservesTruthy pd (applyLabelLine pd line) := by
  unfold applyLabelLine
  by_cases h0 : (pyTrim line).data.isEmpty
  · rw [if_pos h0]; exact pt_refl pd
  · rw [if_neg h0]
    rcases pySplitColon1 (pyTrim line) with _ | ⟨l, r⟩
    · exact pt_refl pd
    · dsimp only
      rcases hf : labelFieldMapping.find? (fun kv => pyContains (pyLower (pyTrim l)) kv.1)
        with _ | kv
      · rw [hf]; exact pt_refl pd
      · rw [hf]; exact setField_pt pd kv.2 _

theorem applyLabelLine_ct (pd : Rec) (line : String) {k : String}
    (h : dictContains pd k = true) : dictContains (applyLabelLine pd line) k = true := by
  unfold applyLabelLine
  by_cases h0 : (pyTrim line).data.isEmpty
  · rw [if_pos h0]; exact h
  · rw [if_neg h0]
    rcases pySplitColon1 (pyTrim line) with _ | ⟨l, r⟩
    · exact h
    · dsimp only
      rcases hf : labelFieldMapping.find? (fun kv => pyContains (pyLower (pyTrim l)) kv.1)
        with _ | kv
      · rw [hf]; exact h
      · rw [hf]; exact setField_ct pd kv.2 _ h

theorem applyLabelLine_get_not_target (pd : Rec) (line : String) {k : String}
    (h : k ∉ labelFieldMapping.map Prod.snd) :
    dictGet (applyLabelLine pd line) k = dictGet pd k := by
  unfold applyLabelLine
  by_cases h0 : (pyTrim line).data.isEmpty
  · rw [if_pos h0]
  · rw [if_neg h0]
    rcases pySplitColon1 (pyTrim line) with _ | ⟨l, r⟩
    · rfl
    · dsimp only
      rcases hf : labelFieldMapping.find? (fun kv => pyContains (pyLower (pyTrim l)) kv.1)
        with _ | kv
      · rw [hf]
      · rw [hf]
        have hmem : kv ∈ labelFieldMapping := List.mem_of_find?_eq_some hf
        have hne : kv.2 ≠ k := fun hh =>
          h (hh ▸ List.mem_map.mpr ⟨kv, hmem, rfl⟩)
        exact setField_get_ne pd hne _

theorem stage_labels_pt (t : String) (pd : Rec) : PreservesTruthy pd (stage_labels t pd) :=
  foldl_rel pt_refl (fun _ _ _ => pt_trans) _ applyLabelLine_pt _ pd

theorem stage_labels_ct (t : String) (pd : Rec) {k : String}
    (h : dictContains pd k = true) : dictContains (stage_labels t pd) k = true := by
  unfold stage_labels
  induction pySplitLines t generalizing pd with
  | nil => exact h
  | cons x xs ih => exact ih _ (applyLabelLine_ct pd x h)

theorem stage_labels_get_not_target (t : String) (pd : Rec) {k : String}
    (h : k ∉ labelFieldMapping.map Prod.snd) :
    dictGet (stage_labels t pd) k = dictGet pd k := by
  unfold stage_labels
  induction pySplitLines t generalizing pd with
  | nil => rfl
  | cons x xs ih => rw [List.foldl_cons, ih _, applyLabelLine_get_not_target pd x h]

theorem stage_desc_pt (ps : Except Unit (List String)) (pd : Rec) :
    PreservesTruthy pd (stage_desc ps pd) := by
  unfold stage_desc
  by_cases hd : fieldTruthy pd "description"
  · rw [if_pos hd]; exact pt_refl pd
  · rw [if_neg hd]
    cases ps with
    | error e => exact pt_refl pd
    | ok l =>
      dsimp only
      by_cases he : ((l.map pyTrim).filter (fun t => t.length > 50)).isEmpty
      · rw [if_pos he]; exact pt_refl pd
      · rw [if_neg he]; exact dictSet_pt_of_not_truthy _ (by simpa using hd)

theorem stage_desc_ct (ps : Except Unit (List String)) (pd : Rec) {k : String}
    (h : dictContains pd k = true) : dictContains (stage_desc ps pd) k = true := by
  unfold stage_desc
  by_cases hd : fieldTruthy pd "description"
  · rw [if_pos hd]; exact h
  · rw [if_neg hd]
    cases ps with
    | error e => exact h
    | ok l =>
      dsimp only
      by_cases he : ((l.map pyTrim).filter (fun t => t.length > 50)).isEmpty
      · rw [if_pos he]; exact h
      · rw [if_neg he]; exact dictContains_dictSet pd _ _ h

theorem stage_desc_get_ne (ps : Except Unit (List String)) (pd : Rec) {k : String}
    (h : k ≠ "description") : dictGet (stage_desc ps pd) k = dictGet pd k := by
  unfold stage_desc
  by_cases hd : fieldTruthy pd "description"
  · rw [if_pos hd]
  · rw [if_neg hd]
    cases ps with
    | error e => rfl
    | ok l =>
      dsimp only
      by_cases he : ((l.map pyTrim).filter (fun t => t.length > 50)).isEmpty
      · rw [if_pos he]
      · rw [if_neg he, dictGet_dictSet_ne pd (fun hh => h hh.symm)]

theorem stage_links_pt (ls : Except Unit (List (Option String))) (pd : Rec) :
    PreservesTruthy pd (stage_links ls pd) := by
  unfold stage_links
  cases ls with
  | error e => exact pt_refl pd
  | ok hs =>
    dsimp only
    rcases collectLinks hs with ⟨ws, es⟩
    dsimp only
    cases ws with
    | nil =>
      cases es with
      | nil => exact pt_refl pd
      | cons e0 es' => exact setIfAbsent_pt pd "email" _
    | cons w0 ws' =>
      cases es with
      | nil => exact setIfAbsent_pt pd "website" _
      | cons e0 es' =>
        exact pt_trans (setIfAbsent_pt pd "website" _) (setIfAbsent_pt _ "email" _)

theorem stage_links_ct (ls : Except Unit (List (Option String))) (pd : Rec) {k : String}
    (h : dictContains pd k = true) : dictContains (stage_links ls pd) k = true := by
  unfold stage_links
  cases ls with
  | error e => exact h
  | ok hs =>
    dsimp only
    rcases collectLinks hs with ⟨ws, es⟩
    dsimp only
    cases ws with
    | nil =>
      cases es with
      | nil => exact h
      | cons e0 es' => exact setIfAbsent_ct pd "email" _ h
    | cons w0 ws' =>
      cases es with
      | nil => exact setIfAbsent_ct pd "website" _ h
      | cons e0 es' => exact setIfAbsent_ct _ "email" _ (setIfAbsent_ct pd "website" _ h)

theorem stage_links_get_ne (ls : Except Unit (List (Option String))) (pd : Rec)
    {k : String} (h1 : k ≠ "website") (h2 : k ≠ "email") :
    dictGet (stage_links ls pd) k = dictGet pd k := by
  unfold stage_links
  cases ls with
  | error e => rfl
  | ok hs =>
    dsimp only
    rcases collectLinks hs with ⟨ws, es⟩
    dsimp only
    cases ws with
    | nil =>
      cases es with
      | nil => rfl
      | cons e0 es' => exact setIfAbsent_get_ne pd (fun hh => h2 hh.symm) _
    | cons w0 ws' =>
      cases es with
      | nil => exact setIfAbsent_get_ne pd (fun hh => h1 hh.symm) _
      | cons e0 es' =>
        rw [setIfAbsent_get_ne _ (fun hh => h2 hh.symm) _,
          setIfAbsent_get_ne pd (fun hh => h1 hh.symm) _]

theorem mergeFlattened_pt (pd : Rec) (flat : Rec) :
    PreservesTruthy pd (mergeFlattened pd flat) := by
  unfold mergeFlattened
  induction flat generalizing pd with
  | nil => exact pt_refl pd
  | cons kv rest ih => exact pt_trans (setField_pt pd kv.1 kv.2) (ih _)

theorem mergeFlattened_ct (pd : Rec) (flat : Rec) {k : String}
    (h : dictContains pd k = true) : dictContains (mergeFlattened pd flat) k = true := by
  unfold mergeFlattened
  induction flat generalizing pd with
  | nil => exact h
  | cons kv rest ih => exact ih _ (setField_ct pd kv.1 kv.2 h)

theorem stage_json_pt (tags : List ScriptTag) (pd : Rec) :
    PreservesTruthy pd (stage_json tags pd) := by
  refine foldl_rel pt_refl (fun _ _ _ => pt_trans) _ ?_ _ pd
  intro d tag
  cases tag with
  | noString => exact pt_refl d
  | parseFail => exact pt_refl d
  | parsed v =>
    cases v with
    | obj kvs => exact mergeFlattened_pt d _
    | null => exact pt_refl d
    | bool b => exact pt_refl d
    | num n => exact pt_refl d
    | str s => exact pt_refl d
    | arr xs => exact pt_refl d

theorem stage_json_ct (tags : List ScriptTag) (pd : Rec) {k : String}
    (h : dictContains pd k = true) : dictContains (stage_json tags pd) k = true := by
  unfold stage_json
  induction tags generalizing pd with
  | nil => exact h
  | cons tag rest ih =>
    refine ih _ ?_
    cases tag with
    | noString => exact h
    | parseFail => exact h
    | parsed v =>
      cases v with
      | obj kvs => exact mergeFlattened_ct pd _ h
      | null => exact h
      | bool b => exact h
      | num n => exact h
      | str s => exact h
      | arr xs => exact h

theorem stage_fulltext_pte (t : String) (pd : Rec) :
    PreservesTruthyExcept ["full_text"] pd (stage_fulltext t pd) := by
  intro k v hk hget htr
  unfold stage_fulltext
  by_cases he : t.data.isEmpty
  · rw [if_pos he]; exact hget
  · rw [if_neg he]
    have hne : "full_text" ≠ k := fun hh => hk (hh ▸ List.mem_singleton_self _)
    rw [dictGet_dictSet_ne pd hne]
    exact hget

theorem stage_fulltext_ct (t : String) (pd : Rec) {k : String}
    (h : dictContains pd k = true) : dictContains (stage_fulltext t pd) k = true := by
  unfold stage_fulltext
  by_cases he : t.data.isEmpty
  · rw [if_pos he]; exact h
  · rw [if_neg he]; exact dictContains_dictSet pd _ _ h

theorem stage_fulltext_get_ne (t : String) (pd : Rec) {k : String}
    (h : k ≠ "full_text") : dictGet (stage_fulltext t pd) k = dictGet pd k := by
  unfold stage_fulltext
  by_cases he : t.data.isEmpty
  · rw [if_pos he]
  · rw [if_neg he]; exact dictGet_dictSet_ne pd (fun hh => h hh.symm) _

theorem idFromChars_ne_nil {l d : List Char} (h : idFromChars l = some d) : d ≠ [] := by
  induction l with
  | nil => simp [idFromChars] at h
  | cons c rest ih =>
    unfold idFromChars at h
    by_cases hp : profilesLit.isPrefixOf (c :: rest)
    · rw [if_pos hp] at h
      dsimp only at h
      by_cases hd : (((c :: rest).drop profilesLit.length).takeWhile Char.isDigit).isEmpty
      · rw [if_pos hd] at h; exact ih h
      · rw [if_neg hd] at h
        cases h
        simpa [List.isEmpty_iff] using hd
    · rw [if_neg hp] at h; exact ih h

theorem extractProfileId_data_ne_nil {url : String} {pid : String}
    (h : extractProfileId url = some pid) : pid.data.isEmpty = false := by
  unfold extractProfileId at h
  rcases hi : idFromChars url.data with _ | d
  · rw [hi] at h; cases h
  · rw [hi] at h
    cases h
    simpa [String.mk, List.isEmpty_iff] using idFromChars_ne_nil hi

theorem pairwise_of_chain_pte {ex : List String} (l : List Rec)
    (h : List.Chain' (PreservesTruthyExcept ex) l) :
    List.Pairwise (PreservesTruthyExcept ex) l := by
  haveI : IsTrans Rec (PreservesTruthyExcept ex) := ⟨fun _ _ _ => pte_trans⟩
  exact List.chain'_iff_pairwise.mp h

/-! ## Claim C1 -/

/-- Claim C1 (amended): along the successful run of `scrape_profile`, every
field other than `full_text` that some stage snapshot holds with a truthy
(non-empty) value keeps that exact value in every later snapshot: the
full-text stage is the one stage that overwrites unconditionally. -/
theorem scrape_profile_first_writer_wins :
    ∀ (url : String) (pg : Page) (states : List Rec),
      scrapeStates url pg = some states →
      states.Pairwise (PreservesTruthyExcept ["full_text"]) := by
  intro url pg states h
  unfold scrapeStates at h
  by_cases hlt : pg.loadTimeout = true
  · rw [if_pos hlt] at h; cases h
  · rw [if_neg hlt] at h
    rcases hbt : pg.bodyText with e | pt
    · rw [hbt] at h; cases h
    · rw [hbt] at h
      dsimp only at h
      rcases hscr : pg.scripts with e | tags
      · rw [hscr] at h; cases h
      · rw [hscr] at h
        dsimp only at h
        cases Option.some.inj h
        refine pairwise_of_chain_pte _ ?_
        simp only [List.chain'_cons, List.chain'_singleton, and_true]
        exact ⟨pt_to_pte (stage_js_pt_init pg.nuxt url),
          pt_to_pte (stage_name_pt _ _),
          pt_to_pte (stage_labels_pt _ _),
          pt_to_pte (stage_desc_pt _ _),
          pt_to_pte (stage_links_pt _ _),
          pt_to_pte (stage_json_pt _ _),
          stage_fulltext_pte _ _⟩

/-- Claim C1, witness: the amended theorem applied to a concrete page. -/
theorem scrape_profile_first_writer_wins_witness :
    List.Pairwise (PreservesTruthyExcept ["full_text"]) c1States :=
  scrape_profile_first_writer_wins "u1" c1Page c1States rfl

/-- Claim C1, counterexample to the claim as stated: on `c1Page` the
embedded-JSON stage (stage 6) populates `full_text` with the non-empty value
"hi", and the later full-text stage overwrites it with the page text. -/
theorem scrape_profile_overwrites_full_text :
    scrapeStates "u1" c1Page = some c1States ∧
    dictGet (c1States.getD 6 []) "full_text" = some (JValue.str "hi") ∧
    jvTruthy (JValue.str "hi") = true ∧
    dictGet (c1States.getD 7 []) "full_text" = some (JValue.str "abc") ∧
    scrape_profile "u1" c1Page = some (c1States.getD 7 []) :=
  ⟨rfl, rfl, rfl, rfl, rfl⟩

/-! ## Claim C2 -/

/-- Claim C2 (amended): `scrape_profile` is total (record or `None`); a
page-load timeout yields `None`; an exception inside a *guarded* stage
(embedded client-state, one name-selector attempt, description fallback,
link harvesting, one JSON script parse) is equivalent to that stage
contributing nothing, with all later stages executing unchanged; but an
exception in the stage-unguarded body-text read (used by the label/value
scan) escapes every stage-level guard and the whole call returns `None`. -/
theorem scrape_profile_error_semantics :
    ∀ (url : String) (lt : Bool) (nx : Except Unit JValue)
      (sels : List (Except Unit (List String))) (bt : Except Unit String)
      (ps : Except Unit (List String)) (ls : Except Unit (List (Option String)))
      (scr : Except Unit (List ScriptTag)),
      (scrape_profile url ⟨true, nx, sels, bt, ps, ls, scr⟩ = none) ∧
      (scrape_profile url ⟨false, nx, sels, .error (), ps, ls, scr⟩ = none) ∧
      (scrape_profile url ⟨false, nx, sels, bt, ps, ls, .error ()⟩ = none) ∧
      (scrape_profile url ⟨lt, .error (), sels, bt, ps, ls, scr⟩ =
        scrape_profile url ⟨lt, .ok .null, sels, bt, ps, ls, scr⟩) ∧
      (∀ rest, scrape_profile url ⟨lt, nx, .error () :: rest, bt, ps, ls, scr⟩ =
        scrape_profile url ⟨lt, nx, rest, bt, ps, ls, scr⟩) ∧
      (scrape_profile url ⟨lt, nx, sels, bt, .error (), ls, scr⟩ =
        scrape_profile url ⟨lt, nx, sels, bt, .ok [], ls, scr⟩) ∧
      (scrape_profile url ⟨lt, nx, sels, bt, ps, .error (), scr⟩ =
        scrape_profile url ⟨lt, nx, sels, bt, ps, .ok [], scr⟩) ∧
      (∀ rest, scrape_profile url ⟨lt, nx, sels, bt, ps, ls, .ok (.parseFail :: rest)⟩ =
        scrape_profile url ⟨lt, nx, sels, bt, ps, ls, .ok rest⟩) := by
  intro url lt nx sels bt ps ls scr
  refine ⟨rfl, ?_, ?_, rfl, fun rest => rfl, rfl, rfl, fun rest => rfl⟩
  · rfl
  · unfold scrape_profile scrapeStates
    by_cases hlt : false = true
    · cases hlt
    · rw [if_neg hlt]
      cases bt with
      | error e => rfl
      | ok pt => rfl

/-- Claim C2, counterexample to the claim as stated: an exception raised
while reading the body text (inside the label/value extraction stage) makes
the whole call return `None` — the later stages do not execute — whereas the
identical page without that exception produces a record. -/
theorem scrape_profile_body_text_escape :
    c2PageErr.loadTimeout = false ∧
    scrape_profile "u2" c2PageErr = none ∧
    scrape_profile "u2" c2PageOk =
      some [("url", JValue.str "u2"), ("profile_id", JValue.null)] :=
  ⟨rfl, rfl, rfl⟩

/-! ## Lexicographic string order -/

theorem listLexLe_nil (bs : List Char) : listLexLe [] bs = true := rfl

theorem listLexLe_total : ∀ as bs : List Char, listLexLe as bs = true ∨ listLexLe bs as = true := by
  intro as
  induction as with
  | nil => intro bs; exact Or.inl rfl
  | cons a as' ih =>
    intro bs
    cases bs with
    | nil => exact Or.inr rfl
    | cons b bs' =>
      by_cases hab : a = b
      · subst hab
        rcases ih bs' with h | h
        · exact Or.inl (by simpa [listLexLe] using h)
        · exact Or.inr (by simpa [listLexLe] using h)
      · rcases lt_or_gt_of_ne hab with hlt | hgt
        · refine Or.inl ?_
          simp only [listLexLe, if_neg hab, decide_eq_true_eq]
          exact hlt
        · refine Or.inr ?_
          simp only [listLexLe, if_neg (Ne.symm hab), decide_eq_true_eq]
          exact hgt

theorem listLexLe_trans :
    ∀ as bs cs : List Char, listLexLe as bs = true → listLexLe bs cs = true →
      listLexLe as cs = true := by
  intro as
  induction as with
  | nil => intro bs cs _ _; rfl
  | cons a as' ih =>
    intro bs cs h1 h2
    cases bs with
    | nil => simp [listLexLe] at h1
    | cons b bs' =>
      cases cs with
      | nil => simp [listLexLe] at h2
      | cons c cs' =>
        by_cases hab : a = b
        · subst hab
          rw [listLexLe, if_pos rfl] at h1
          by_cases hac : a = c
          · subst hac
            rw [listLexLe, if_pos rfl] at h2 ⊢
            exact ih bs' cs' h1 h2
          · rw [listLexLe, if_neg hac] at h2 ⊢
            exact h2
        · rw [listLexLe, if_neg hab, decide_eq_true_eq] at h1
          by_cases hbc : b = c
          · subst hbc
            rw [listLexLe, if_neg hab, decide_eq_true_eq]
            exact h1
          · rw [listLexLe, if_neg hbc, decide_eq_true_eq] at h2
            have hac : a < c := lt_trans h1 h2
            rw [listLexLe, if_neg (ne_of_lt hac), decide_eq_true_eq]
            exact hac

theorem pyStrLe_total : ∀ a b : String, pyStrLe a b = true ∨ pyStrLe b a = true :=
  fun a b => listLexLe_total a.data b.data

theorem pyStrLe_trans : ∀ a b c : String,
    pyStrLe a b = true → pyStrLe b c = true → pyStrLe a c = true :=
  fun a b c => listLexLe_trans a.data b.data c.data

theorem pySortStrings_sorted (l : List String) :
    List.Sorted (fun a b => pyStrLe a b = true) (pySortStrings l) := by
  haveI : IsTotal String (fun a b => pyStrLe a b = true) := ⟨pyStrLe_total⟩
  haveI : IsTrans String (fun a b => pyStrLe a b = true) := ⟨pyStrLe_trans⟩
  exact List.sorted_insertionSort _ _

theorem pySortStrings_perm (l : List String) : List.Perm (pySortStrings l) l :=
  List.perm_insertionSort _ _

/-! ## Substring and prefix facts -/

theorem pyStartsWith_append (s t p : String) (h : pyStartsWith s p = true) :
    pyStartsWith (s ++ t) p = true := by
  unfold pyStartsWith at h ⊢
  rw [String.data_append]
  rw [List.isPrefixOf_iff_prefix] at h ⊢
  exact h.trans (List.prefix_append _ _)

theorem listContainsSub_append_left (n pre l : List Char)
    (h : listContainsSub n l = true) : listContainsSub n (pre ++ l) = true := by
  induction pre with
  | nil => exact h
  | cons c cs ih =>
    show (n.isPrefixOf (c :: (cs ++ l)) || listContainsSub n (cs ++ l)) = true
    rw [Bool.or_eq_true]
    exact Or.inr ih

theorem listContainsSub_here (n suf : List Char) : listContainsSub n (n ++ suf) = true := by
  cases n with
  | nil =>
    cases suf with
    | nil => rfl
    | cons c cs =>
      show (List.isPrefixOf [] (c :: cs) || listContainsSub [] cs) = true
      rw [Bool.or_eq_true]
      exact Or.inl (List.isPrefixOf_nil_left)
  | cons c cs =>
    show (List.isPrefixOf (c :: cs) (c :: (cs ++ suf)) || _) = true
    rw [Bool.or_eq_true]
    refine Or.inl ?_
    rw [List.isPrefixOf_iff_prefix]
    exact List.prefix_append _ _

theorem pyContains_append_left (pre s sub : String) (h : pyContains s sub = true) :
    pyContains (pre ++ s) sub = true := by
  unfold pyContains at h ⊢
  rw [String.data_append]
  exact listContainsSub_append_left _ _ _ h

theorem pyContains_of_data {u : String} (pre suf : List Char)
    (hu : u.data = pre ++ (profilesLit ++ suf)) : pyContains u "/profiles/" = true := by
  unfold pyContains
  rw [hu]
  exact listContainsSub_append_left _ _ _ (listContainsSub_here _ _)

theorem normalizeUrl_startsWith (h : String) :
    pyStartsWith (normalizeUrl h) "http" = true := by
  unfold normalizeUrl
  by_cases h1 : pyStartsWith h "/" = true
  · rw [if_pos h1]
    exact pyStartsWith_append base_url h "http" rfl
  · rw [if_neg h1]
    by_cases h2 : pyStartsWith h "http" = true
    · simp [h2]
    · simp only [Bool.not_eq_true] at h2
      simp only [h2, Bool.not_false, if_true]
      exact pyStartsWith_append (base_url ++ "/") h "http" rfl

theorem normalizeUrl_contains (h : String) (hc : pyContains h "/profiles/" = true) :
    pyContains (normalizeUrl h) "/profiles/" = true := by
  unfold normalizeUrl
  by_cases h1 : pyStartsWith h "/" = true
  · rw [if_pos h1]
    exact pyContains_append_left base_url h _ hc
  · rw [if_neg h1]
    by_cases h2 : pyStartsWith h "http" = true
    · simp only [h2, Bool.not_true, Bool.false_eq_true, if_false]
      exact hc
    · simp only [Bool.not_eq_true] at h2
      simp only [h2, Bool.not_false, if_true]
      exact pyContains_append_left (base_url ++ "/") h _ hc

/-! ## Shapes of regex-scan outputs -/

theorem matchQuotedTail_shape {l tm rest : List Char}
    (h : matchQuotedTail l = some (tm, rest)) : ∃ suf, tm = profilesLit ++ suf := by
  unfold matchQuotedTail at h
  by_cases hp : profilesLit.isPrefixOf l = true
  · rw [if_pos hp] at h
    dsimp only at h
    by_cases hd : ((l.drop profilesLit.length).takeWhile Char.isDigit).isEmpty = true
    · rw [if_pos hd] at h; cases h
    · rw [if_neg hd] at h
      rcases hdrop : (l.drop profilesLit.length).drop
          ((l.drop profilesLit.length).takeWhile Char.isDigit).length with _ | ⟨c, rest'⟩
      · rw [hdrop] at h; cases h
      · rw [hdrop] at h
        dsimp only at h
        by_cases hq : isQuoteChar c = true
        · rw [if_pos hq] at h
          cases h
          exact ⟨_, rfl⟩
        · rw [if_neg hq] at h; cases h
  · rw [if_neg hp] at h; cases h

theorem tryQuotedBody_shape :
    ∀ (l acc g r : List Char), tryQuotedBody acc l = some (g, r) →
      ∃ pre suf, g = pre ++ (profilesLit ++ suf) := by
  intro l
  induction l with
  | nil =>
    intro acc g r h
    rw [show tryQuotedBody acc [] =
        (match matchQuotedTail [] with
         | some (tm, rest) => some (acc ++ tm, rest)
         | none => none) from rfl] at h
    rw [show matchQuotedTail [] = none from rfl] at h
    cases h
  | cons c cs ih =>
    intro acc g r h
    unfold tryQuotedBody at h
    rcases hmt : matchQuotedTail (c :: cs) with _ | ⟨tm, rest⟩
    · rw [hmt] at h
      dsimp only at h
      by_cases hq : isQuoteChar c = true
      · rw [if_pos hq] at h; cases h
      · rw [if_neg hq] at h; exact ih _ _ _ h
    · rw [hmt] at h
      dsimp only at h
      cases h
      obtain ⟨suf, hsuf⟩ := matchQuotedTail_shape hmt
      exact ⟨acc, suf, by rw [hsuf]⟩

theorem quotedScan_shape :
    ∀ (fuel : Nat) (l : List Char) (g : List Char), g ∈ quotedScan fuel l →
      ∃ pre suf, g = pre ++ (profilesLit ++ suf) := by
  intro fuel
  induction fuel with
  | zero => intro l g h; cases h
  | succ fuel ih =>
    intro l g h
    cases l with
    | nil => cases h
    | cons c rest =>
      unfold quotedScan at h
      by_cases hq : isQuoteChar c = true
      · rw [if_pos hq] at h
        rcases htb : tryQuotedBody [] rest with _ | gr
        · rw [htb] at h
          exact ih rest g h
        · obtain ⟨g0, rest2⟩ := gr
          rw [htb] at h
          dsimp only at h
          rcases List.mem_cons.mp h with h' | h'
          · rw [h']; exact tryQuotedBody_shape rest [] g0 rest2 htb
          · exact ih rest2 g h'
      · rw [if_neg hq] at h
        exact ih rest g h

/-! ## Discovery accumulator invariants -/

theorem mem_insertIfAbsent {acc : List String} {x u : String}
    (h : u ∈ insertIfAbsent acc x) : u ∈ acc ∨ u = x := by
  unfold insertIfAbsent at h
  by_cases hm : x ∈ acc
  · rw [if_pos hm] at h; exact Or.inl h
  · rw [if_neg hm] at h
    rcases List.mem_append.mp h with h' | h'
    · exact Or.inl h'
    · exact Or.inr (List.mem_singleton.mp h')

theorem mem_foldl_insertIfAbsent :
    ∀ (l acc : List String) (u : String), u ∈ l.foldl insertIfAbsent acc →
      u ∈ acc ∨ u ∈ l := by
  intro l
  induction l with
  | nil => intro acc u h; exact Or.inl h
  | cons x xs ih =>
    intro acc u h
    rcases ih _ u h with h' | h'
    · rcases mem_insertIfAbsent h' with h'' | h''
      · exact Or.inl h''
      · exact Or.inr (h'' ▸ List.mem_cons_self x xs)
    · exact Or.inr (List.mem_cons_of_mem x h')

theorem insertIfAbsent_nodup {acc : List String} (u : String) (h : acc.Nodup) :
    (insertIfAbsent acc u).Nodup := by
  unfold insertIfAbsent
  by_cases hm : u ∈ acc
  · rw [if_pos hm]; exact h
  · rw [if_neg hm]
    rw [List.nodup_append]
    exact ⟨h, List.nodup_singleton u, by
      intro x hx hx'
      rw [List.mem_singleton] at hx'
      exact hm (hx' ▸ hx)⟩

theorem foldl_insertIfAbsent_nodup :
    ∀ (l acc : List String), acc.Nodup → (l.foldl insertIfAbsent acc).Nodup := by
  intro l
  induction l with
  | nil => intro acc h; exact h
  | cons x xs ih => intro acc h; exact ih _ (insertIfAbsent_nodup x h)

theorem extractUrls_pred (pg : DirPage) (u : String) (hu : u ∈ extractUrlsFromPage pg) :
    pyStartsWith u "http" = true ∧ pyContains u "/profiles/" = true := by
  unfold extractUrlsFromPage at hu
  dsimp only at hu
  rcases List.mem_append.mp hu with hm | hm
  · rcases hl : pg.linkHrefs with e | hs
    · rw [hl] at hm; cases hm
    · rw [hl] at hm
      obtain ⟨h0, _, heq⟩ := List.mem_filterMap.mp hm
      by_cases hc : pyContains h0 "/profiles/" = true
      · rw [if_pos hc] at heq
        cases heq
        exact ⟨normalizeUrl_startsWith h0, normalizeUrl_contains h0 hc⟩
      · rw [if_neg hc] at heq; cases heq
  · rcases hsrc : pg.pageSource with e | src
    · rw [hsrc] at hm; cases hm
    · rw [hsrc] at hm
      rcases List.mem_append.mp hm with hm2 | hm3
      · obtain ⟨g, hg, heq⟩ := List.mem_map.mp hm2
        obtain ⟨pre, suf, hshape⟩ := quotedScan_shape _ _ g hg
        subst heq
        have hcontains : pyContains ⟨g⟩ "/profiles/" = true :=
          pyContains_of_data pre suf (by rw [hshape])
        exact ⟨normalizeUrl_startsWith _, normalizeUrl_contains _ hcontains⟩
      · obtain ⟨d, _, heq⟩ := List.mem_map.mp hm3
        subst heq
        constructor
        · exact pyStartsWith_append _ _ "http"
            (pyStartsWith_append base_url "/profiles/" "http" rfl)
        · refine pyContains_of_data base_url.data d ?_
          rw [show ((base_url ++ "/profiles/" ++ (⟨d⟩ : String)) : String).data
              = (base_url.data ++ profilesLit) ++ d by
            rw [String.data_append, String.data_append]
            rfl]
          rw [List.append_assoc]

theorem pageLoop_mem_pred (pages : Nat → DirPage) (nav : Nat → Bool) :
    ∀ (fuel page : Nat) (acc : List String),
      (∀ u ∈ acc, pyStartsWith u "http" = true ∧ pyContains u "/profiles/" = true) →
      ∀ u ∈ (pageLoop pages nav fuel page acc).1,
        pyStartsWith u "http" = true ∧ pyContains u "/profiles/" = true := by
  intro fuel
  induction fuel with
  | zero => intro page acc hacc u hu; exact hacc u hu
  | succ fuel ih =>
    intro page acc hacc u hu
    unfold pageLoop at hu
    dsimp only at hu
    have hacc' : ∀ v ∈ (extractUrlsFromPage (pages page)).foldl insertIfAbsent acc,
        pyStartsWith v "http" = true ∧ pyContains v "/profiles/" = true := by
      intro v hv
      rcases mem_foldl_insertIfAbsent _ _ v hv with h' | h'
      · exact hacc v h'
      · exact extractUrls_pred _ v h'
    by_cases hn : nav page = true
    · rw [if_pos hn] at hu
      rcases hres : pageLoop pages nav fuel (page + 1)
          ((extractUrlsFromPage (pages page)).foldl insertIfAbsent acc) with ⟨r, n⟩
      rw [hres] at hu
      dsimp only at hu
      have := ih (page + 1) _ hacc' u
      rw [hres] at this
      exact this hu
    · rw [if_neg hn] at hu
      exact hacc' u hu

theorem pageLoop_nodup (pages : Nat → DirPage) (nav : Nat → Bool) :
    ∀ (fuel page : Nat) (acc : List String), acc.Nodup →
      (pageLoop pages nav fuel page acc).1.Nodup := by
  intro fuel
  induction fuel with
  | zero => intro page acc h; exact h
  | succ fuel ih =>
    intro page acc hacc
    unfold pageLoop
    dsimp only
    have hacc' := foldl_insertIfAbsent_nodup (extractUrlsFromPage (pages page)) acc hacc
    by_cases hn : nav page = true
    · rw [if_pos hn]
      rcases hres : pageLoop pages nav fuel (page + 1)
          ((extractUrlsFromPage (pages page)).foldl insertIfAbsent acc) with ⟨r, n⟩
      dsimp only
      have := ih (page + 1) _ hacc'
      rw [hres] at this
      exact this
    · rw [if_neg hn]
      exact hacc'

/-! ## Claim C3 -/

/-- Claim C3 (amended): the output of URL discovery is lexicographically
sorted (Python string order on code points), duplicate-free, and every
element starts with "http" (absolute) and contains the detail-path marker
"/profiles/".  (The numeric-identifier part of the original claim is
guaranteed only for the page-source extractors, not for DOM hrefs — see the
counterexample.) -/
theorem discovery_output_properties :
    ∀ (pages : Nat → DirPage) (nav : Nat → Bool),
      List.Sorted (fun a b => pyStrLe a b = true) (get_all_startup_urls pages nav) ∧
      (get_all_startup_urls pages nav).Nodup ∧
      ∀ u ∈ get_all_startup_urls pages nav,
        pyStartsWith u "http" = true ∧ pyContains u "/profiles/" = true := by
  intro pages nav
  refine ⟨pySortStrings_sorted _, ?_, ?_⟩
  · exact (pySortStrings_perm _).nodup_iff.mpr
      (pageLoop_nodup pages nav 1000 1 [] List.nodup_nil)
  · intro u hu
    have hu' : u ∈ (pageLoop pages nav 1000 1 []).1 := (pySortStrings_perm _).subset hu
    exact pageLoop_mem_pred pages nav 1000 1 [] (by intro v hv; cases hv) u hu'

/-- Claim C3, witness: the amended theorem applied to the concrete directory. -/
theorem discovery_output_properties_witness :
    pyStartsWith "https://www.startupsg.gov.sg/profiles/abc" "http" = true ∧
    pyContains "https://www.startupsg.gov.sg/profiles/abc" "/profiles/" = true :=
  (discovery_output_properties c3Pages c3Nav).2.2 _ (List.Mem.head _)

/-- Claim C3, counterexample to the claim as stated: the DOM-href extractor
accepts any href containing "/profiles/", so discovery can return a URL with
no numeric identifier segment (the code's own id regex finds none in it). -/
theorem discovery_output_non_numeric :
    get_all_startup_urls c3Pages c3Nav = ["https://www.startupsg.gov.sg/profiles/abc"] ∧
    extractProfileId "https://www.startupsg.gov.sg/profiles/abc" = none :=
  ⟨rfl, rfl⟩

/-! ## Claim C4 -/

/-- Claim C4 (code bug): on a page whose embedded client-state is
`{"companyName": "Acme", "sector": "Fintech"}` with body text
"Founded: 2019", the code extracts `sector` and `founded` but *not*
`name` — the `field_mapping` lookup lowercases the incoming key, so its own
camel-case entry `companyName` can never match (`find?` on the lowered key
returns `none`). -/
theorem scrape_profile_companyName_bug :
    scrape_profile c4Url c4Page = some c4Rec ∧
    dictGet c4Rec "name" = none ∧
    dictGet c4Rec "sector" = some (JValue.str "Fintech") ∧
    dictGet c4Rec "founded" = some (JValue.str "2019") ∧
    extract_profile_from_js c4Json = [("sector", JValue.str "Fintech")] ∧
    pyLower "companyName" = "companyname" ∧
    jsFieldMapping.find? (fun kv => kv.1 = pyLower "companyName") = none :=
  ⟨rfl, rfl, rfl, rfl, rfl, rfl, rfl⟩

/-! ## Claim C5 -/

/-- Claim C5 (amended): every record produced by `scrape_profile` contains
the keys `url` and `profile_id`; when the URL has a numeric `/profiles/`
segment the id value is that digit string; when it has none, `profile_id`
is present holding the null value (not absent) — it stays null whenever the
page has no embedded JSON scripts that could fill the falsy field. -/
theorem scrape_profile_ids (url : String) (pg : Page) (r : Rec)
    (h : scrape_profile url pg = some r) :
    dictContains r "url" = true ∧
    dictContains r "profile_id" = true ∧
    (∀ pid, extractProfileId url = some pid →
      dictGet r "profile_id" = some (JValue.str pid)) ∧
    (extractProfileId url = none → pg.scripts = Except.ok [] →
      dictGet r "profile_id" = some JValue.null) := by
  unfold scrape_profile at h
  rcases hs : scrapeStates url pg with _ | states
  · rw [hs] at h; cases h
  · rw [hs] at h
    simp only [Option.map_some'] at h
    cases Option.some.inj h
    unfold scrapeStates at hs
    by_cases hlt : pg.loadTimeout = true
    · rw [if_pos hlt] at hs; cases hs
    · rw [if_neg hlt] at hs
      rcases hbt : pg.bodyText with e | pt
      · rw [hbt] at hs; cases hs
      · rw [hbt] at hs
        dsimp only at hs
        rcases hscr : pg.scripts with e | tags
        · rw [hscr] at hs; cases hs
        · rw [hscr] at hs
          dsimp only at hs
          cases Option.some.inj hs
          refine ⟨?_, ?_, ?_, ?_⟩
          · exact stage_fulltext_ct pt _ (stage_json_ct tags _ (stage_links_ct pg.linkHrefs _
              (stage_desc_ct pg.paraTexts _ (stage_labels_ct pt _
                (stage_name_ct pg.selectorTexts _ (stage_js_ct pg.nuxt _ rfl))))))
          · exact stage_fulltext_ct pt _ (stage_json_ct tags _ (stage_links_ct pg.linkHrefs _
              (stage_desc_ct pg.paraTexts _ (stage_labels_ct pt _
                (stage_name_ct pg.selectorTexts _ (stage_js_ct pg.nuxt _ rfl))))))
          · intro pid hpid
            have h0 : dictGet (initRecord url) "profile_id" =
                some (match extractProfileId url with
                      | some s => JValue.str s
                      | none => JValue.null) := rfl
            rw [hpid] at h0
            have htr : jvTruthy (JValue.str pid) = true := by
              rw [show jvTruthy (JValue.str pid) = !pid.data.isEmpty from rfl,
                extractProfileId_data_ne_nil hpid]
              rfl
            have p1 := stage_js_pt_init pg.nuxt url "profile_id" _ h0 htr
            have p2 := stage_name_pt pg.selectorTexts _ "profile_id" _ p1 htr
            have p3 := stage_labels_pt pt _ "profile_id" _ p2 htr
            have p4 := stage_desc_pt pg.paraTexts _ "profile_id" _ p3 htr
            have p5 := stage_links_pt pg.linkHrefs _ "profile_id" _ p4 htr
            have p6 := stage_json_pt tags _ "profile_id" _ p5 htr
            exact stage_fulltext_pte pt _ "profile_id" _ (by decide) p6 htr
          · intro hnone hsc
            have htags : tags = [] := Except.ok.inj hsc
            subst htags
            have h0 : dictGet (initRecord url) "profile_id" =
                some (match extractProfileId url with
                      | some s => JValue.str s
                      | none => JValue.null) := rfl
            rw [hnone] at h0
            show dictGet (stage_fulltext pt (stage_json []
              (stage_links pg.linkHrefs (stage_desc pg.paraTexts
                (stage_labels pt (stage_name pg.selectorTexts
                  (stage_js pg.nuxt (initRecord url)))))))) "profile_id" =
              some JValue.null
            rw [stage_fulltext_get_ne pt _ (by decide)]
            show dictGet (stage_links pg.linkHrefs (stage_desc pg.paraTexts
              (stage_labels pt (stage_name pg.selectorTexts
                (stage_js pg.nuxt (initRecord url)))))) "profile_id" = some JValue.null
            rw [stage_links_get_ne pg.linkHrefs _ (by decide) (by decide),
              stage_desc_get_ne pg.paraTexts _ (by decide),
              stage_labels_get_not_target pt _ (by decide),
              stage_name_get_ne pg.selectorTexts _ (by decide),
              stage_js_get_not_target pg.nuxt _ (by decide)]
            exact h0

/-- Claim C5, witness: a URL with numeric identifier 12345 yields
`profile_id = "12345"`. -/
theorem scrape_profile_ids_witness :
    dictGet c5wRec "profile_id" = some (JValue.str "12345") :=
  (scrape_profile_ids c5wUrl c5wPage c5wRec rfl).2.2.1 "12345" rfl

/-- Claim C5, counterexample to the claim as stated: for a URL with no
numeric `/profiles/` segment the key `profile_id` is *present* in the
record (holding null), not absent. -/
theorem scrape_profile_id_null_not_absent :
    scrape_profile "https://www.startupsg.gov.sg/about" c5Page =
      some [("url", JValue.str "https://www.startupsg.gov.sg/about"),
            ("profile_id", JValue.null)] ∧
    extractProfileId "https://www.startupsg.gov.sg/about" = none ∧
    dictContains [("url", JValue.str "https://www.startupsg.gov.sg/about"),
      ("profile_id", JValue.null)] "profile_id" = true :=
  ⟨rfl, rfl, rfl⟩

/-! ## Claim C6 -/

/-- Claim C6 (amended): when the page's visible text is non-empty, every
successful record holds `full_text` = the first 3000 code points of that
text, which is at most 3000 characters long.  (When the visible text is
empty the full-text stage writes nothing — see the counterexample.) -/
theorem scrape_profile_full_text (url : String) (pg : Page) (r : Rec) (pt : String)
    (h : scrape_profile url pg = some r) (hbt : pg.bodyText = Except.ok pt)
    (hne : pt.data.isEmpty = false) :
    dictGet r "full_text" = some (JValue.str (pyTake pt 3000)) ∧
    (pyTake pt 3000).length ≤ 3000 := by
  unfold scrape_profile at h
  rcases hs : scrapeStates url pg with _ | states
  · rw [hs] at h; cases h
  · rw [hs] at h
    simp only [Option.map_some'] at h
    cases Option.some.inj h
    unfold scrapeStates at hs
    by_cases hlt : pg.loadTimeout = true
    · rw [if_pos hlt] at hs; cases hs
    · rw [if_neg hlt] at hs
      rw [hbt] at hs
      dsimp only at hs
      rcases hscr : pg.scripts with e | tags
      · rw [hscr] at hs; cases hs
      · rw [hscr] at hs
        dsimp only at hs
        cases Option.some.inj hs
        constructor
        · show dictGet (stage_fulltext pt (stage_json tags
            (stage_links pg.linkHrefs (stage_desc pg.paraTexts
              (stage_labels pt (stage_name pg.selectorTexts
                (stage_js pg.nuxt (initRecord url)))))))) "full_text" = _
          unfold stage_fulltext
          rw [if_neg (by rw [hne]; exact Bool.false_ne_true)]
          exact dictGet_dictSet_same _ _ _
        · show ((⟨pt.data.take 3000⟩ : String)).length ≤ 3000
          rw [String.length_mk]
          exact List.length_take_le 3000 pt.data

/-- Claim C6, witness: the amended theorem at a page with text "hello". -/
theorem scrape_profile_full_text_witness :
    dictGet c6wRec "full_text" = some (JValue.str (pyTake "hello" 3000)) ∧
    (pyTake "hello" 3000).length ≤ 3000 :=
  scrape_profile_full_text "w6" c6wPage c6wRec "hello" rfl rfl rfl

/-- Claim C6, counterexample to the claim as stated: a page whose visible
text is empty still produces a successful record, but that record has no
`full_text` key at all. -/
theorem scrape_profile_empty_text_no_full_text :
    scrape_profile "u6" c6Page = some [("url", JValue.str "u6"), ("profile_id", JValue.null)] ∧
    dictGet [("url", JValue.str "u6"), ("profile_id", JValue.null)] "full_text" = none :=
  ⟨rfl, rfl⟩

/-! ## Claim C7 -/

theorem mem_insertIfAbsent_iff {acc : List String} {x u : String} :
    u ∈ insertIfAbsent acc x ↔ u ∈ acc ∨ u = x := by
  unfold insertIfAbsent
  by_cases hm : x ∈ acc
  · rw [if_pos hm]
    constructor
    · exact Or.inl
    · rintro (h | h)
      · exact h
      · exact h ▸ hm
  · rw [if_neg hm, List.mem_append, List.mem_singleton]

theorem mem_foldl_insertIfAbsent_iff :
    ∀ (l acc : List String) (u : String),
      u ∈ l.foldl insertIfAbsent acc ↔ u ∈ acc ∨ u ∈ l := by
  intro l
  induction l with
  | nil => intro acc u; simp
  | cons x xs ih =>
    intro acc u
    rw [List.foldl_cons, ih, mem_insertIfAbsent_iff, List.mem_cons]
    tauto

theorem mem_keysAcc_iff :
    ∀ (data : List Rec) (acc : List String) (k : String),
      k ∈ data.foldl (fun acc r => (listKeys r).foldl insertIfAbsent acc) acc ↔
        k ∈ acc ∨ ∃ r ∈ data, k ∈ listKeys r := by
  intro data
  induction data with
  | nil => intro acc k; simp
  | cons r rs ih =>
    intro acc k
    rw [List.foldl_cons, ih, mem_foldl_insertIfAbsent_iff]
    constructor
    · rintro ((h | h) | ⟨r', hr', hk⟩)
      · exact Or.inl h
      · exact Or.inr ⟨r, List.mem_cons_self r rs, h⟩
      · exact Or.inr ⟨r', List.mem_cons_of_mem r hr', hk⟩
    · rintro (h | ⟨r', hr', hk⟩)
      · exact Or.inl (Or.inl h)
      · rcases List.mem_cons.mp hr' with h' | h'
        · exact Or.inl (Or.inr (h' ▸ hk))
        · exact Or.inr ⟨r', h', hk⟩

theorem dictContains_iff_mem {r : Rec} {k : String} :
    dictContains r k = true ↔ k ∈ listKeys r := by
  induction r with
  | nil => simp [dictContains, dictGet, listKeys]
  | cons kv rest ih =>
    obtain ⟨k0, v0⟩ := kv
    by_cases h0 : k0 = k
    · subst h0
      simp [dictContains, dictGet, listKeys]
    · rw [listKeys_cons, List.mem_cons]
      show (dictGet ((k0, v0) :: rest) k).isSome = true ↔ _
      rw [show dictGet ((k0, v0) :: rest) k
          = if k0 = k then some v0 else dictGet rest k from rfl, if_neg h0]
      rw [show (dictGet rest k).isSome = dictContains rest k from rfl, ih]
      constructor
      · exact Or.inr
      · rintro (h | h)
        · exact absurd h.symm h0
        · exact h

theorem keysAcc_nodup :
    ∀ (data : List Rec) (acc : List String), acc.Nodup →
      (data.foldl (fun acc r => (listKeys r).foldl insertIfAbsent acc) acc).Nodup := by
  intro data
  induction data with
  | nil => intro acc h; exact h
  | cons r rs ih =>
    intro acc h
    exact ih _ (foldl_insertIfAbsent_nodup _ _ h)

/-- Claim C7: for a non-empty record list, `upload_data` uploads a table
whose header row is the lexicographically sorted, duplicate-free union of
all record keys; each record becomes exactly one row, in input order, and
every field a record lacks is rendered as the empty string. -/
theorem upload_data_table (data : List Rec) (hne : data ≠ []) :
    List.Sorted (fun a b => pyStrLe a b = true) (uploadHeaders data) ∧
    (uploadHeaders data).Nodup ∧
    (∀ k, k ∈ uploadHeaders data ↔ ∃ r ∈ data, dictContains r k = true) ∧
    (uploadRows data).length = data.length + 1 ∧
    (uploadRows data).head? = some (uploadHeaders data) ∧
    (∀ i (hi : i < data.length),
      (uploadRows data)[i + 1]? =
        some ((uploadHeaders data).map (pyGetStr (data.get ⟨i, hi⟩)))) ∧
    (∀ (r : Rec) (k : String), dictContains r k = false → pyGetStr r k = "") ∧
    (∀ (wname : String) (e : Bool),
      SheetOp.update "A1" (uploadRows data) ∈ upload_data data wname e) := by
  refine ⟨pySortStrings_sorted _, ?_, ?_, ?_, rfl, ?_, ?_, ?_⟩
  · exact (pySortStrings_perm _).nodup_iff.mpr (keysAcc_nodup data [] List.nodup_nil)
  · intro k
    unfold uploadHeaders
    rw [(pySortStrings_perm _).mem_iff, mem_keysAcc_iff]
    simp only [List.not_mem_nil, false_or]
    constructor
    · rintro ⟨r, hr, hk⟩
      exact ⟨r, hr, dictContains_iff_mem.mpr hk⟩
    · rintro ⟨r, hr, hk⟩
      exact ⟨r, hr, dictContains_iff_mem.mp hk⟩
  · show (uploadHeaders data :: data.map _).length = data.length + 1
    rw [List.length_cons, List.length_map]
  · intro i hi
    show (uploadHeaders data :: data.map _)[i + 1]? = _
    rw [List.getElem?_cons_succ, List.getElem?_map, List.getElem?_eq_getElem hi]
    rfl
  · intro r k hc
    unfold pyGetStr
    rcases hg : dictGet r k with _ | v
    · rfl
    · rw [show dictContains r k = (dictGet r k).isSome from rfl, hg] at hc
      cases hc
  · intro wname e
    unfold upload_data
    rw [if_neg (by simpa [List.isEmpty_iff] using hne)]
    cases e <;> simp

/-- Claim C7, witness: records with field sets `{url, name}` and
`{url, industry}` produce the header row `[industry, name, url]` and
empty-string fill for the missing fields. -/
theorem upload_data_table_witness :
    uploadHeaders [c7r1, c7r2] = ["industry", "name", "url"] ∧
    List.Sorted (fun a b => pyStrLe a b = true) (uploadHeaders [c7r1, c7r2]) ∧
    uploadRows [c7r1, c7r2] =
      [["industry", "name", "url"], ["", "n", "u"], ["i", "", "u2"]] :=
  ⟨rfl, (upload_data_table [c7r1, c7r2] (List.cons_ne_nil _ _)).1, rfl⟩

/-! ## Claim C8 -/

theorem pageLoop_iters_le (pages : Nat → DirPage) (nav : Nat → Bool) :
    ∀ (fuel page : Nat) (acc : List String),
      (pageLoop pages nav fuel page acc).2 ≤ fuel := by
  intro fuel
  induction fuel with
  | zero => intro page acc; exact Nat.le_refl 0
  | succ fuel ih =>
    intro page acc
    unfold pageLoop
    dsimp only
    by_cases hn : nav page = true
    · rw [if_pos hn]
      rcases hres : pageLoop pages nav fuel (page + 1)
          ((extractUrlsFromPage (pages page)).foldl insertIfAbsent acc) with ⟨r, n⟩
      dsimp only
      have := ih (page + 1) ((extractUrlsFromPage (pages page)).foldl insertIfAbsent acc)
      rw [hres] at this
      exact Nat.succ_le_succ this
    · rw [if_neg hn]
      exact Nat.succ_le_succ (Nat.zero_le fuel)

theorem pageLoop_iters_all_true (pages : Nat → DirPage) (nav : Nat → Bool)
    (hnav : ∀ p, nav p = true) :
    ∀ (fuel page : Nat) (acc : List String),
      (pageLoop pages nav fuel page acc).2 = fuel := by
  intro fuel
  induction fuel with
  | zero => intro page acc; rfl
  | succ fuel ih =>
    intro page acc
    unfold pageLoop
    dsimp only
    rw [if_pos (hnav page)]
    rcases hres : pageLoop pages nav fuel (page + 1)
        ((extractUrlsFromPage (pages page)).foldl insertIfAbsent acc) with ⟨r, n⟩
    dsimp only
    have := ih (page + 1) ((extractUrlsFromPage (pages page)).foldl insertIfAbsent acc)
    rw [hres] at this
    exact congrArg (fun m => m + 1) this

theorem pageLoop_iters_first_false (pages : Nat → DirPage) (nav : Nat → Bool) :
    ∀ (fuel k page : Nat) (acc : List String), k < fuel →
      (∀ j, j < k → nav (page + j) = true) → nav (page + k) = false →
      (pageLoop pages nav fuel page acc).2 = k + 1 := by
  intro fuel
  induction fuel with
  | zero => intro k page acc hk; exact absurd hk (Nat.not_lt_zero k)
  | succ fuel ih =>
    intro k page acc hk hall hfalse
    unfold pageLoop
    dsimp only
    cases k with
    | zero =>
      have h0 : nav page = false := by simpa using hfalse
      rw [if_neg (by simp [h0])]
    | succ k' =>
      have hnav0 : nav page = true := by simpa using hall 0 (Nat.succ_pos k')
      rw [if_pos hnav0]
      rcases hres : pageLoop pages nav fuel (page + 1)
          ((extractUrlsFromPage (pages page)).foldl insertIfAbsent acc) with ⟨r, n⟩
      dsimp only
      have hall' : ∀ j, j < k' → nav (page + 1 + j) = true := by
        intro j hj
        rw [show page + 1 + j = page + (j + 1) by omega]
        exact hall (j + 1) (by omega)
      have hfalse' : nav (page + 1 + k') = false := by
        rw [show page + 1 + k' = page + (k' + 1) by omega]
        exact hfalse
      have := ih k' (page + 1)
        ((extractUrlsFromPage (pages page)).foldl insertIfAbsent acc)
        (by omega) hall' hfalse'
      rw [hres] at this
      exact congrArg (fun m => m + 1) this

/-- Claim C8: URL discovery always terminates — the page-advance loop runs
at most 1000 iterations (exactly 1000 if navigation always succeeds), and
stops right away at the first page where navigation reports failure. -/
theorem discovery_terminates :
    ∀ (pages : Nat → DirPage) (nav : Nat → Bool),
      discoveryIterations pages nav ≤ 1000 ∧
      ((∀ p, nav p = true) → discoveryIterations pages nav = 1000) ∧
      (∀ k, k < 1000 → (∀ j, j < k → nav (1 + j) = true) → nav (1 + k) = false →
        discoveryIterations pages nav = k + 1) := by
  intro pages nav
  refine ⟨pageLoop_iters_le pages nav 1000 1 [], ?_, ?_⟩
  · intro hnav
    exact pageLoop_iters_all_true pages nav hnav 1000 1 []
  · intro k hk hall hfalse
    exact pageLoop_iters_first_false pages nav 1000 k 1 [] hk hall hfalse

/-- Claim C8, witness: a directory whose first page has no next page stops
after exactly one iteration, well under the 1000-page cap. -/
theorem discovery_terminates_witness :
    discoveryIterations c8Pages c8Nav = 1 ∧ discoveryIterations c8Pages c8Nav ≤ 1000 :=
  ⟨(discovery_terminates c8Pages c8Nav).2.2 0 (by omega)
      (fun j hj => absurd hj (Nat.not_lt_zero j)) rfl,
   (discovery_terminates c8Pages c8Nav).1⟩

/-! ## Claim C9 -/

/-- Claim C9: in every run of `main`, any remote-upload attempt is preceded
in the event trace by the local JSON save of the scraped records, and an
upload failure is caught: the saved-local event is still in the trace and
the local file still holds the records afterwards. -/
theorem main_saves_before_upload (inp : MainInput) :
    (∀ i, (mainEvents inp).get? i = some Event.uploadAttempt →
      ∃ j, j < i ∧ (mainEvents inp).get? j = some (Event.savedLocal (mainAllData inp))) ∧
    (∀ m, Event.uploadFailed m ∈ mainEvents inp →
      Event.savedLocal (mainAllData inp) ∈ mainEvents inp ∧
      localDisk (mainEvents inp) = some (mainAllData inp)) := by
  obtain ⟨so, urls, limit, scrapeR, saveOk, skip, upOut⟩ := inp
  cases so with
  | false =>
    refine ⟨?_, ?_⟩
    · intro i hi
      simp [mainEvents] at hi
    · intro m hm
      simp [mainEvents] at hm
  | true =>
    cases urls with
    | error e =>
      refine ⟨?_, ?_⟩
      · intro i hi
        simp [mainEvents] at hi
      · intro m hm
        simp [mainEvents] at hm
    | ok us =>
      by_cases hus : us.isEmpty = true
      · refine ⟨?_, ?_⟩
        · intro i hi
          simp [mainEvents, hus] at hi
        · intro m hm
          simp [mainEvents, hus] at hm
      · cases saveOk with
        | false =>
          refine ⟨?_, ?_⟩
          · intro i hi
            simp [mainEvents, hus] at hi
          · intro m hm
            simp [mainEvents, hus] at hm
        | true =>
          have htrace : mainEvents ⟨true, .ok us, limit, scrapeR, true, skip, upOut⟩ =
              Event.savedLocal ((applyLimit limit us).filterMap scrapeR) ::
                (if skip then []
                 else Event.uploadAttempt ::
                   (match upOut with
                    | .ok _ => [Event.uploadOk]
                    | .error m => [Event.uploadFailed m])) := by
            simp [mainEvents, hus]
          have hdata : mainAllData ⟨true, .ok us, limit, scrapeR, true, skip, upOut⟩ =
              (applyLimit limit us).filterMap scrapeR := rfl
          rw [htrace, hdata]
          refine ⟨?_, ?_⟩
          · intro i hi
            cases i with
            | zero => simp at hi
            | succ n => exact ⟨0, Nat.succ_pos n, rfl⟩
          · intro m hm
            cases skip with
            | true =>
              simp at hm
            | false =>
              cases upOut with
              | ok u =>
                simp at hm
              | error msg =>
                exact ⟨List.mem_cons_self _ _, rfl⟩

/-- Claim C9, witness: a concrete run whose upload fails with a
missing-credentials error still has its records saved locally first. -/
theorem main_saves_before_upload_witness :
    Event.savedLocal (mainAllData c9Input) ∈ mainEvents c9Input ∧
    localDisk (mainEvents c9Input) = some (mainAllData c9Input) :=
  (main_saves_before_upload c9Input).2 "Credentials file not found"
    (List.Mem.tail _ (List.Mem.tail _ (List.Mem.head _)))

/-! ## Claim C10 -/

/-- Claim C10: `upload_data` called with an empty record list performs no
worksheet operation at all — no clear, no update, no format; the prior
spreadsheet contents are untouched. -/
theorem upload_data_empty_no_ops :
    ∀ (wname : String) (e : Bool), upload_data [] wname e = [] :=
  fun _ _ => rfl

end StartupScraper
